import Mathlib

/-!
Shallow embedding of the bowling/pickleball shared-ledger server
(`server.js`, latest revision): the cost-allocation, batch-reconciliation
and soft-delete logic of the routes
`POST /activity/:id/record`, `POST /activity/:id/deposit`,
`POST /activity/:id/update-transaction` and
`POST /activity/:id/delete-transaction`.

Amounts are modelled as exact rationals (the source stores `NUMERIC` and
computes with JS numbers).  The database is a list of user rows and a list
of transaction rows; `SERIAL` ids are modelled by a fresh-id counter.
Description strings are modelled structurally: the code only ever writes
the shapes below and only ever inspects them with the regular expression
matching the embedded batch total, which `matchTotal` embeds.
-/

namespace Bowling

/-- Transaction type tag written by the record routes. -/
def expenseType : String := "expense"

/-- Transaction type tag written by the deposit route. -/
def depositType : String := "deposit"

/-- Transaction type tag written by the soft-delete route. -/
def voidType : String := "void"

/-- A user row: `users(id, activity_id, balance)` (name omitted: never read
by the modelled logic). -/
structure User where
  id : Nat
  activityId : Nat
  balance : ℚ
deriving DecidableEq, Repr

/-- Description strings, structurally.  The source writes exactly these
shapes: bowling rows get a games label, split rows get a label embedding
the batch total and, when the member brought guests, the guest count;
deposits get a fixed label; soft-delete re-prefixes the old description
with a deletion marker.  `other` stands for any free-text description not
containing the embedded-total pattern. -/
inductive Desc where
  | bowl (games : Nat)
  | pickle (total : ℚ) (extra : Nat)
  | depositNote
  | deleted (d : Desc)
  | other (tag : Nat)
deriving DecidableEq, Repr

/-- Embedding of the regular expression that recovers the batch total from
a description (the capture group after the total marker).  A deletion
marker keeps the old text, so the pattern still matches inside it. -/
def matchTotal : Desc → Option ℚ
  | .pickle total _ => some total
  | .deleted d => matchTotal d
  | _ => none

/-- A transaction row:
`transactions(id, activity_id, user_id, type, amount, description, date)`.
Timestamps are abstract instants compared for exact equality, as the
source does. -/
structure Txn where
  id : Nat
  activityId : Nat
  userId : Nat
  type : String
  amount : ℚ
  description : Desc
  date : Nat
deriving DecidableEq, Repr

/-- The database state plus the `SERIAL` counter for transaction ids. -/
structure AppState where
  users : List User
  txns : List Txn
  nextId : Nat
deriving DecidableEq, Repr

/-- `UPDATE users SET balance = balance + d WHERE id = uid` (the source
writes subtraction as adding the negated amount). -/
def adjustBalance (uid : Nat) (d : ℚ) (s : AppState) : AppState :=
  { s with users := s.users.map fun u =>
      if u.id = uid then { u with balance := u.balance + d } else u }

/-- `INSERT INTO transactions (...) VALUES (...)` with a fresh serial id. -/
def insertTxn (s : AppState) (aid uid : Nat) (ty : String) (amt : ℚ)
    (dsc : Desc) (t : Nat) : AppState :=
  { s with txns := s.txns ++ [⟨s.nextId, aid, uid, ty, amt, dsc, t⟩],
           nextId := s.nextId + 1 }

/-- `DELETE FROM transactions WHERE id = i`. -/
def deleteRow (i : Nat) (s : AppState) : AppState :=
  { s with txns := s.txns.filter fun t => decide (t.id ≠ i) }

/-- `UPDATE transactions SET amount = amt WHERE id = i`. -/
def setRowAmount (i : Nat) (amt : ℚ) (s : AppState) : AppState :=
  { s with txns := s.txns.map fun t =>
      if t.id = i then { t with amount := amt } else t }

/-- `UPDATE transactions SET amount = amt, description = d WHERE id = i`. -/
def setRowAmountDesc (i : Nat) (amt : ℚ) (d : Desc) (s : AppState) : AppState :=
  { s with txns := s.txns.map fun t =>
      if t.id = i then { t with amount := amt, description := d } else t }

/-- `UPDATE transactions SET type = 'void', amount = 0, description = d
WHERE id = i` (the soft delete). -/
def voidRow (i : Nat) (d : Desc) (s : AppState) : AppState :=
  { s with txns := s.txns.map fun t =>
      if t.id = i then { t with type := voidType, amount := 0, description := d } else t }

/-- `SELECT * FROM transactions WHERE id = i` (first row). -/
def findTxn (s : AppState) (i : Nat) : Option Txn :=
  s.txns.find? fun t => decide (t.id = i)

/-- `SELECT * FROM users WHERE id = uid` (first row). -/
def findUser (s : AppState) (uid : Nat) : Option User :=
  s.users.find? fun u => decide (u.id = uid)

/-- A member's head count: themself plus the guest count supplied for
them (`myTotal = 1 + myGuest`). -/
def headsOf (guests : Nat → Nat) (uid : Nat) : Nat := 1 + guests uid

/-- The bowling branch of `POST /activity/:id/record`: for every submitted
entry with a positive game count, insert an expense of
`gameCount * costPerGame` and debit the member. -/
def recordBowlLoop (aid : Nat) (costPerGame : ℚ) (t : Nat) :
    List (Nat × Nat) → AppState → AppState
  | [], s => s
  | (userId, gameCount) :: rest, s =>
    if 0 < gameCount then
      let cost : ℚ := (gameCount : ℚ) * costPerGame
      recordBowlLoop aid costPerGame t rest
        (adjustBalance userId (-cost)
          (insertTxn s aid userId expenseType (-cost) (.bowl gameCount) t))
    else
      recordBowlLoop aid costPerGame t rest s

/-- `POST /activity/:id/record`, bowling branch (the route first checks the
submitted games object; an absent object is the empty list). -/
def recordBowl (aid : Nat) (costPerGame : ℚ) (games : List (Nat × Nat))
    (t : Nat) (s : AppState) : AppState :=
  recordBowlLoop aid costPerGame t games s

/-- The insertion loop of the pickleball branch of
`POST /activity/:id/record`: each selected member is charged
`perHeadCost * myHeads`, the row records the batch total and the guest
count, all rows share the one record time. -/
def recordPickleLoop (aid : Nat) (perHeadCost cost : ℚ) (guests : Nat → Nat)
    (t : Nat) : List Nat → AppState → AppState
  | [], s => s
  | userId :: rest, s =>
    let myHeads := headsOf guests userId
    let myCost : ℚ := perHeadCost * (myHeads : ℚ)
    recordPickleLoop aid perHeadCost cost guests t rest
      (adjustBalance userId (-myCost)
        (insertTxn s aid userId expenseType (-myCost)
          (.pickle cost (myHeads - 1)) t))

/-- `POST /activity/:id/record`, pickleball branch.  `totalCost` is the
parsed form value (`none` models a non-numeric submission); nothing is
written unless the head count and the cost are both positive. -/
def recordPickle (aid : Nat) (totalCost : Option ℚ) (userIds : List Nat)
    (guests : Nat → Nat) (t : Nat) (s : AppState) : AppState :=
  let totalHeads := (userIds.map (headsOf guests)).sum
  match totalCost with
  | none => s
  | some cost =>
    if 0 < totalHeads ∧ 0 < cost then
      recordPickleLoop aid (cost / (totalHeads : ℚ)) cost guests t userIds s
    else s

/-- `POST /activity/:id/deposit`: a truthy parsed amount inserts a deposit
row and credits the member. -/
def depositOp (aid uid : Nat) (amount : Option ℚ) (t : Nat)
    (s : AppState) : AppState :=
  match amount with
  | none => s
  | some val =>
    if val ≠ 0 then
      adjustBalance uid val (insertTxn s aid uid depositType val .depositNote t)
    else s

/-- The wipe loop of the update route: every batch row is reversed out of
its owner's balance and hard-deleted. -/
def wipeLoop : List Txn → AppState → AppState
  | [], s => s
  | t :: rest, s =>
    wipeLoop rest (deleteRow t.id (adjustBalance t.userId (-t.amount) s))

/-- Total recovery of the update route: the caller's explicit new amount
if present, otherwise the total parsed from the old row's description,
otherwise the sum of the absolute amounts of the known batch rows. -/
def recoverTotal (newAmount : Option ℚ) (oldDesc : Desc)
    (siblings : List Txn) : ℚ :=
  match newAmount with
  | some v => v
  | none =>
    match matchTotal oldDesc with
    | some t => t
    | none => siblings.foldl (fun sum t => sum + |t.amount|) 0

/-- The reinsert loop of the update route: identical arithmetic to the
record loop, writing every new row at the kept batch timestamp. -/
def updateInsertLoop (aid : Nat) (perHeadCost totalCost : ℚ)
    (guests : Nat → Nat) (sameDate : Nat) : List Nat → AppState → AppState
  | [], s => s
  | uid :: rest, s =>
    let myHeads := headsOf guests uid
    let myCost : ℚ := perHeadCost * (myHeads : ℚ)
    updateInsertLoop aid perHeadCost totalCost guests sameDate rest
      (adjustBalance uid (-myCost)
        (insertTxn s aid uid expenseType (-myCost)
          (.pickle totalCost (myHeads - 1)) sameDate))

/-- The sibling query of the update route: every transaction of the
activity at exactly the old row's timestamp. -/
def updSibList (activityId : Nat) (oldTrans : Txn) (s : AppState) : List Txn :=
  s.txns.filter fun t =>
    decide (t.activityId = activityId ∧ t.date = oldTrans.date)

/-- `POST /activity/:id/update-transaction`.  With selected users present
(the pickleball branch) the batch — every row of the activity at the same
timestamp — is wiped, the total recovered, and new weighted rows written
at the old timestamp if the head count and total are positive.  Otherwise
the normal branch reverses the old amount, computes the new amount from
the game count or the submitted amount (zero when neither is given) and
rewrites the row and the balance. -/
def updateTxn (activityId : Nat) (costPerGame : ℚ) (i : Nat)
    (newGameCount : Option Nat) (newAmount : Option ℚ)
    (selectedUsers : Option (List Nat)) (guests : Nat → Nat)
    (s : AppState) : AppState :=
  match findTxn s i with
  | none => s
  | some oldTrans =>
    match selectedUsers with
    | some userIds =>
      let siblings := updSibList activityId oldTrans s
      let s1 := wipeLoop siblings s
      let totalCost := recoverTotal newAmount oldTrans.description siblings
      let totalHeads := (userIds.map (headsOf guests)).sum
      if 0 < totalHeads ∧ 0 < totalCost then
        updateInsertLoop activityId (totalCost / (totalHeads : ℚ)) totalCost
          guests oldTrans.date userIds s1
      else s1
    | none =>
      let s1 := adjustBalance oldTrans.userId (-oldTrans.amount) s
      let fin : ℚ × Desc :=
        match newGameCount with
        | some games => (-((games : ℚ) * costPerGame), Desc.bowl games)
        | none =>
          match newAmount with
          | some val =>
            (if oldTrans.type = depositType then |val| else -|val|,
             oldTrans.description)
          | none => (0, oldTrans.description)
      adjustBalance oldTrans.userId fin.1 (setRowAmountDesc i fin.1 fin.2 s1)

/-- The sibling-recalculation loop of the delete route: each remaining
sibling has its old amount reversed, the new equal share debited, and its
row amount rewritten. -/
def recalcLoop (newAmount : ℚ) : List Txn → AppState → AppState
  | [], s => s
  | sibling :: rest, s =>
    recalcLoop newAmount rest
      (setRowAmount sibling.id newAmount
        (adjustBalance sibling.userId newAmount
          (adjustBalance sibling.userId (-sibling.amount) s)))

/-- The sibling query of the delete route: the other non-void rows of the
activity with the identical description and timestamp. -/
def sibList (activityId i : Nat) (targetTrans : Txn) (s : AppState) : List Txn :=
  s.txns.filter fun t =>
    decide (t.activityId = activityId ∧
            t.description = targetTrans.description ∧
            t.date = targetTrans.date ∧ t.id ≠ i ∧ t.type ≠ voidType)

/-- `POST /activity/:id/delete-transaction` (soft delete).  The target's
amount is reversed from its owner; if the description carries a batch
total, the non-void siblings with the identical description and timestamp
split that total equally; finally the target row is kept but voided:
type `void`, amount `0`, description prefixed with the deletion marker. -/
def deleteTxn (activityId : Nat) (i : Nat) (s : AppState) : AppState :=
  match findTxn s i with
  | none => s
  | some targetTrans =>
    let s1 := adjustBalance targetTrans.userId (-targetTrans.amount) s
    let s2 :=
      match matchTotal targetTrans.description with
      | some totalCost =>
        let siblings := sibList activityId i targetTrans s1
        if 0 < siblings.length then
          recalcLoop (-(totalCost / (siblings.length : ℚ))) siblings s1
        else s1
      | none => s1
    voidRow i (.deleted targetTrans.description) s2

/-- One request against the modelled routes. -/
inductive Op where
  | opRecordBowl (aid : Nat) (costPerGame : ℚ) (games : List (Nat × Nat)) (t : Nat)
  | opRecordPickle (aid : Nat) (totalCost : Option ℚ) (userIds : List Nat)
      (guests : Nat → Nat) (t : Nat)
  | opDeposit (aid uid : Nat) (amount : Option ℚ) (t : Nat)
  | opUpdate (aid : Nat) (costPerGame : ℚ) (i : Nat) (newGameCount : Option Nat)
      (newAmount : Option ℚ) (selectedUsers : Option (List Nat)) (guests : Nat → Nat)
  | opDelete (aid : Nat) (i : Nat)

/-- Dispatch one request. -/
def applyOp (s : AppState) : Op → AppState
  | .opRecordBowl aid cpg games t => recordBowl aid cpg games t s
  | .opRecordPickle aid tc userIds guests t => recordPickle aid tc userIds guests t s
  | .opDeposit aid uid amount t => depositOp aid uid amount t s
  | .opUpdate aid cpg i ngc na su guests => updateTxn aid cpg i ngc na su guests s
  | .opDelete aid i => deleteTxn aid i s

/-- Run a sequence of requests. -/
def runOps (s : AppState) : List Op → AppState
  | [] => s
  | op :: rest => runOps (applyOp s op) rest

/-- Sum of the stored amounts of one user's transaction rows. -/
def txnSum (uid : Nat) (ts : List Txn) : ℚ :=
  ((ts.filter fun t => decide (t.userId = uid)).map Txn.amount).sum

/-- Every stored balance equals that user's transaction sum, up to the
pending per-user offset `δ` (used to track the intermediate statements of
one request; the real invariant is `δ = 0`). -/
def BalancedAt (δ : Nat → ℚ) (s : AppState) : Prop :=
  ∀ u ∈ s.users, u.balance = txnSum u.id s.txns + δ u.id

/-- Structural well-formedness maintained by the serial id column:
transaction ids are unique and below the counter. -/
def WF (s : AppState) : Prop :=
  (∀ t ∈ s.txns, t.id < s.nextId) ∧ (s.txns.map Txn.id).Nodup

/-- The ledger invariant: well-formed ids and balances equal to the
transaction sums with no pending offset. -/
def Inv (s : AppState) : Prop :=
  WF s ∧ BalancedAt (fun _ => 0) s

instance (δ : Nat → ℚ) (s : AppState) : Decidable (BalancedAt δ s) := by
  unfold BalancedAt; infer_instance

instance (s : AppState) : Decidable (WF s) := by
  unfold WF; infer_instance

instance (s : AppState) : Decidable (Inv s) := by
  unfold Inv; infer_instance

/-- The rows appended by one pickleball allocation event, starting at a
given serial id: one expense per selected member, amount the negated
weighted share, description embedding the batch total and guest count. -/
def pickleRows (aid : Nat) (perHeadCost cost : ℚ) (guests : Nat → Nat)
    (t : Nat) : List Nat → Nat → List Txn
  | [], _ => []
  | uid :: rest, n =>
    ⟨n, aid, uid, expenseType, -(perHeadCost * (headsOf guests uid : ℚ)),
      .pickle cost (headsOf guests uid - 1), t⟩
      :: pickleRows aid perHeadCost cost guests t rest (n + 1)

/-! ### Concrete fixtures (database snapshots) used by the per-claim
witnesses and counterexamples -/

def stateC1 : AppState := ⟨[⟨1, 1, 0⟩, ⟨2, 1, 0⟩], [], 1⟩

def guestsC1 : Nat → Nat := fun u => if u = 2 then 1 else 0

def opsC1 : List Op :=
  [.opDeposit 1 1 (some 100) 3,
   .opRecordPickle 1 (some 90) [1, 2] guestsC1 5,
   .opUpdate 1 0 2 none (some 120) (some [1, 2]) guestsC1,
   .opDelete 1 4]

def stateC2 : AppState := ⟨[⟨1, 1, 0⟩, ⟨2, 1, 0⟩], [], 1⟩

def guestsC2 : Nat → Nat := fun u => if u = 2 then 1 else 0

def stateC3 : AppState := ⟨[⟨1, 1, 0⟩, ⟨2, 1, 0⟩], [], 1⟩

def guestsC3 : Nat → Nat := fun u => if u = 2 then 1 else 0

def stateC4 : AppState :=
  ⟨[⟨1, 1, -30⟩, ⟨2, 1, -60⟩],
   [⟨1, 1, 1, expenseType, -30, .pickle 90 0, 5⟩,
    ⟨2, 1, 2, expenseType, -60, .pickle 90 1, 5⟩], 3⟩

def stateC4w : AppState :=
  ⟨[⟨1, 1, -30⟩, ⟨2, 1, -30⟩, ⟨3, 1, -30⟩],
   [⟨1, 1, 1, expenseType, -30, .pickle 90 0, 5⟩,
    ⟨2, 1, 2, expenseType, -30, .pickle 90 0, 5⟩,
    ⟨3, 1, 3, expenseType, -30, .pickle 90 0, 5⟩], 4⟩

def stateC5 : AppState :=
  ⟨[⟨1, 1, -30⟩, ⟨2, 1, -30⟩],
   [⟨1, 1, 1, expenseType, -30, .bowl 3, 5⟩,
    ⟨2, 1, 2, expenseType, -30, .bowl 3, 5⟩], 3⟩

def stateC6 : AppState :=
  ⟨[⟨1, 1, -30⟩], [⟨1, 1, 1, expenseType, -30, .pickle 30 0, 5⟩], 2⟩

def guestsC6 : Nat → Nat := fun _ => 0

def stateC7 : AppState :=
  ⟨[⟨1, 1, -30⟩, ⟨2, 1, -30⟩, ⟨3, 1, -30⟩],
   [⟨1, 1, 1, expenseType, -30, .pickle 90 0, 5⟩,
    ⟨2, 1, 2, expenseType, -30, .pickle 90 0, 5⟩,
    ⟨3, 1, 3, expenseType, -30, .pickle 90 0, 5⟩], 4⟩

def stateC8 : AppState :=
  ⟨[⟨1, 1, -45⟩, ⟨2, 1, -45⟩],
   [⟨1, 1, 1, expenseType, -45, .pickle 90 0, 5⟩,
    ⟨2, 1, 2, expenseType, -45, .pickle 90 0, 5⟩], 3⟩

def guestsC8 : Nat → Nat := fun _ => 0

def stateC10 : AppState :=
  ⟨[⟨1, 1, -30⟩], [⟨1, 1, 1, expenseType, -30, .bowl 3, 5⟩], 2⟩

def guestsC10 : Nat → Nat := fun _ => 0

/-! ### Basic bookkeeping lemmas -/

@[simp] theorem adjustBalance_txns (w : Nat) (d : ℚ) (s : AppState) :
    (adjustBalance w d s).txns = s.txns := rfl

@[simp] theorem adjustBalance_nextId (w : Nat) (d : ℚ) (s : AppState) :
    (adjustBalance w d s).nextId = s.nextId := rfl

@[simp] theorem insertTxn_users (s : AppState) (aid uid : Nat) (ty : String)
    (amt : ℚ) (dsc : Desc) (t : Nat) :
    (insertTxn s aid uid ty amt dsc t).users = s.users := rfl

@[simp] theorem deleteRow_users (i : Nat) (s : AppState) :
    (deleteRow i s).users = s.users := rfl

@[simp] theorem deleteRow_nextId (i : Nat) (s : AppState) :
    (deleteRow i s).nextId = s.nextId := rfl

@[simp] theorem setRowAmount_users (i : Nat) (amt : ℚ) (s : AppState) :
    (setRowAmount i amt s).users = s.users := rfl

@[simp] theorem setRowAmount_nextId (i : Nat) (amt : ℚ) (s : AppState) :
    (setRowAmount i amt s).nextId = s.nextId := rfl

@[simp] theorem setRowAmountDesc_users (i : Nat) (amt : ℚ) (d : Desc) (s : AppState) :
    (setRowAmountDesc i amt d s).users = s.users := rfl

@[simp] theorem setRowAmountDesc_nextId (i : Nat) (amt : ℚ) (d : Desc) (s : AppState) :
    (setRowAmountDesc i amt d s).nextId = s.nextId := rfl

@[simp] theorem voidRow_users (i : Nat) (d : Desc) (s : AppState) :
    (voidRow i d s).users = s.users := rfl

@[simp] theorem voidRow_nextId (i : Nat) (d : Desc) (s : AppState) :
    (voidRow i d s).nextId = s.nextId := rfl

theorem txnSum_cons (uid : Nat) (t : Txn) (ts : List Txn) :
    txnSum uid (t :: ts) = (if t.userId = uid then t.amount else 0) + txnSum uid ts := by
  by_cases h : t.userId = uid <;> simp [txnSum, List.filter_cons, h]

theorem txnSum_append (uid : Nat) (ts rs : List Txn) :
    txnSum uid (ts ++ rs) = txnSum uid ts + txnSum uid rs := by
  simp [txnSum, List.filter_append]

theorem txnSum_single (uid : Nat) (r : Txn) :
    txnSum uid [r] = if r.userId = uid then r.amount else 0 := by
  by_cases h : r.userId = uid <;> simp [txnSum, h]

theorem map_eq_self_of {α : Type} (f : α → α) :
    ∀ l : List α, (∀ x ∈ l, f x = x) → l.map f = l
  | [], _ => rfl
  | a :: l, h => by
    rw [List.map_cons, h a (List.mem_cons_self a l),
      map_eq_self_of f l fun x hx => h x (List.mem_cons_of_mem a hx)]

theorem findUser_id {s : AppState} {w : Nat} {u : User}
    (h : findUser s w = some u) : u.id = w := by
  simpa using List.find?_some h

theorem findUser_mem {s : AppState} {w : Nat} {u : User}
    (h : findUser s w = some u) : u ∈ s.users :=
  List.mem_of_find?_eq_some h

theorem findTxn_id {s : AppState} {i : Nat} {r : Txn}
    (h : findTxn s i = some r) : r.id = i := by
  simpa using List.find?_some h

theorem findTxn_mem {s : AppState} {i : Nat} {r : Txn}
    (h : findTxn s i = some r) : r ∈ s.txns :=
  List.mem_of_find?_eq_some h

theorem balancedAt_congr {δ₁ δ₂ : Nat → ℚ} {s : AppState}
    (h : ∀ x, δ₁ x = δ₂ x) (hb : BalancedAt δ₁ s) : BalancedAt δ₂ s := by
  intro u hu
  rw [← h u.id]
  exact hb u hu

theorem balancedAt_adjust {δ : Nat → ℚ} {s : AppState} (w : Nat) (d : ℚ)
    (hb : BalancedAt δ s) :
    BalancedAt (fun x => δ x + if x = w then d else 0) (adjustBalance w d s) := by
  intro u hu
  rcases List.mem_map.mp hu with ⟨v, hv, rfl⟩
  have hb' := hb v hv
  by_cases h : v.id = w
  · rw [if_pos h]
    show v.balance + d
      = txnSum v.id (adjustBalance w d s).txns + (δ v.id + if v.id = w then d else 0)
    rw [if_pos h, adjustBalance_txns]
    linarith
  · rw [if_neg h]
    show v.balance
      = txnSum v.id (adjustBalance w d s).txns + (δ v.id + if v.id = w then d else 0)
    rw [if_neg h, adjustBalance_txns]
    linarith

theorem balancedAt_insert {δ : Nat → ℚ} {s : AppState}
    (aid uid : Nat) (ty : String) (amt : ℚ) (dsc : Desc) (t : Nat)
    (hb : BalancedAt δ s) :
    BalancedAt (fun x => δ x - if x = uid then amt else 0)
      (insertTxn s aid uid ty amt dsc t) := by
  intro u hu
  have hb' := hb u hu
  show u.balance = txnSum u.id (s.txns ++ [⟨s.nextId, aid, uid, ty, amt, dsc, t⟩])
    + (δ u.id - if u.id = uid then amt else 0)
  rw [txnSum_append, txnSum_single]
  show u.balance = (txnSum u.id s.txns + if uid = u.id then amt else 0)
    + (δ u.id - if u.id = uid then amt else 0)
  by_cases h : u.id = uid
  · rw [if_pos h, if_pos h.symm]
    linarith
  · rw [if_neg h, if_neg (Ne.symm h)]
    linarith

theorem txnSum_filter_ne (uid : Nat) (r : Txn) :
    ∀ ts : List Txn, (ts.map Txn.id).Nodup → r ∈ ts →
    txnSum uid (ts.filter fun x => decide (x.id ≠ r.id)) =
      txnSum uid ts - (if r.userId = uid then r.amount else 0)
  | [], _, hr => absurd hr (List.not_mem_nil r)
  | t :: ts, hnd, hr => by
    rw [List.map_cons, List.nodup_cons] at hnd
    by_cases hid : t.id = r.id
    · have hrt : r = t := by
        rcases List.mem_cons.mp hr with h | h
        · exact h
        · exfalso
          apply hnd.1
          rw [hid]
          exact List.mem_map_of_mem Txn.id h
      subst hrt
      rw [List.filter_cons_of_neg (by simp [hid]),
        List.filter_eq_self.mpr fun x hx => by
          simp only [decide_eq_true_iff]
          intro hc
          apply hnd.1
          rw [← hc]
          exact List.mem_map_of_mem Txn.id hx,
        txnSum_cons]
      ring
    · have hr' : r ∈ ts := by
        rcases List.mem_cons.mp hr with h | h
        · exact absurd (congrArg Txn.id h).symm hid
        · exact h
      rw [List.filter_cons_of_pos (by simp [hid]), txnSum_cons,
        txnSum_filter_ne uid r ts hnd.2 hr', txnSum_cons]
      ring

theorem balancedAt_deleteRow {δ : Nat → ℚ} {s : AppState} {r : Txn}
    (hnd : (s.txns.map Txn.id).Nodup) (hr : r ∈ s.txns) (hb : BalancedAt δ s) :
    BalancedAt (fun x => δ x + if x = r.userId then r.amount else 0)
      (deleteRow r.id s) := by
  intro u hu
  have hb' := hb u hu
  show u.balance = txnSum u.id (s.txns.filter fun x => decide (x.id ≠ r.id))
    + (δ u.id + if u.id = r.userId then r.amount else 0)
  rw [txnSum_filter_ne u.id r s.txns hnd hr]
  by_cases h : u.id = r.userId
  · rw [if_pos h, if_pos h.symm]
    linarith
  · rw [if_neg h, if_neg (Ne.symm h)]
    linarith

theorem txnSum_mapUpdate (uid : Nat) (r : Txn) (g : Txn → Txn) :
    ∀ ts : List Txn, (ts.map Txn.id).Nodup → r ∈ ts →
    txnSum uid (ts.map fun t => if t.id = r.id then g t else t) =
      txnSum uid ts - (if r.userId = uid then r.amount else 0)
        + (if (g r).userId = uid then (g r).amount else 0)
  | [], _, hr => absurd hr (List.not_mem_nil r)
  | t :: ts, hnd, hr => by
    rw [List.map_cons, List.nodup_cons] at hnd
    by_cases hid : t.id = r.id
    · have hrt : r = t := by
        rcases List.mem_cons.mp hr with h | h
        · exact h
        · exfalso
          apply hnd.1
          rw [hid]
          exact List.mem_map_of_mem Txn.id h
      subst hrt
      rw [List.map_cons, if_pos hid, map_eq_self_of _ ts fun x hx => by
          refine if_neg fun hc => hnd.1 ?_
          rw [← hc]
          exact List.mem_map_of_mem Txn.id hx,
        txnSum_cons, txnSum_cons]
      ring
    · have hr' : r ∈ ts := by
        rcases List.mem_cons.mp hr with h | h
        · exact absurd (congrArg Txn.id h).symm hid
        · exact h
      rw [List.map_cons, if_neg hid, txnSum_cons,
        txnSum_mapUpdate uid r g ts hnd.2 hr', txnSum_cons]
      ring

theorem map_ext_of {α β : Type} (f g : α → β) :
    ∀ l : List α, (∀ x ∈ l, f x = g x) → l.map f = l.map g
  | [], _ => rfl
  | a :: l, h => by
    rw [List.map_cons, List.map_cons, h a (List.mem_cons_self a l),
      map_ext_of f g l fun x hx => h x (List.mem_cons_of_mem a hx)]

theorem balancedAt_mapRow {δ : Nat → ℚ} {s : AppState} {r : Txn} (g : Txn → Txn)
    (hg1 : (g r).userId = r.userId)
    (hnd : (s.txns.map Txn.id).Nodup) (hr : r ∈ s.txns) (hb : BalancedAt δ s) :
    BalancedAt (fun x => δ x + if x = r.userId then r.amount - (g r).amount else 0)
      { s with txns := s.txns.map fun t => if t.id = r.id then g t else t } := by
  intro u hu
  have hb' := hb u hu
  show u.balance = txnSum u.id (s.txns.map fun t => if t.id = r.id then g t else t)
    + (δ u.id + if u.id = r.userId then r.amount - (g r).amount else 0)
  rw [txnSum_mapUpdate u.id r g s.txns hnd hr, hg1]
  by_cases h : u.id = r.userId
  · rw [if_pos h, if_pos h.symm, if_pos h.symm]
    linarith
  · rw [if_neg h, if_neg (Ne.symm h), if_neg (Ne.symm h)]
    linarith

theorem wf_insertTxn {s : AppState} (aid uid : Nat) (ty : String) (amt : ℚ)
    (dsc : Desc) (t : Nat) (hw : WF s) : WF (insertTxn s aid uid ty amt dsc t) := by
  obtain ⟨hbound, hnd⟩ := hw
  constructor
  · intro x hx
    show x.id < s.nextId + 1
    rcases List.mem_append.mp hx with h | h
    · exact Nat.lt_succ_of_lt (hbound x h)
    · rw [List.mem_singleton] at h
      subst h
      exact Nat.lt_succ_self _
  · show (List.map Txn.id (s.txns ++ [⟨s.nextId, aid, uid, ty, amt, dsc, t⟩])).Nodup
    rw [List.map_append, List.nodup_append]
    refine ⟨hnd, List.nodup_singleton _, ?_⟩
    intro a ha hb
    rw [List.map_singleton, List.mem_singleton] at hb
    have hb' : a = s.nextId := hb
    subst hb'
    rcases List.mem_map.mp ha with ⟨x, hx, hxa⟩
    have := hbound x hx
    omega

theorem wf_deleteRow (i : Nat) {s : AppState} (hw : WF s) : WF (deleteRow i s) := by
  obtain ⟨hbound, hnd⟩ := hw
  constructor
  · intro x hx
    exact hbound x (List.mem_of_mem_filter hx)
  · exact ((List.filter_sublist s.txns).map Txn.id).nodup hnd

theorem wf_mapRow (i : Nat) (g : Txn → Txn) (hg : ∀ t, (g t).id = t.id)
    {s : AppState} (hw : WF s) :
    WF { s with txns := s.txns.map fun t => if t.id = i then g t else t } := by
  obtain ⟨hbound, hnd⟩ := hw
  have hid : ∀ t : Txn, (if t.id = i then g t else t).id = t.id := by
    intro t
    by_cases h : t.id = i
    · rw [if_pos h, hg]
    · rw [if_neg h]
  constructor
  · intro x hx
    rcases List.mem_map.mp hx with ⟨t, ht, rfl⟩
    show (if t.id = i then g t else t).id < s.nextId
    rw [hid t]
    exact hbound t ht
  · show (List.map Txn.id (s.txns.map fun t => if t.id = i then g t else t)).Nodup
    rw [List.map_map, map_ext_of _ Txn.id s.txns (by intro t _; exact hid t)]
    exact hnd

/-! ### Loop lemmas -/

theorem wipeLoop_inv : ∀ (l : List Txn) (s : AppState) (δ : Nat → ℚ),
    WF s → BalancedAt δ s → (l.map Txn.id).Nodup → (∀ t ∈ l, t ∈ s.txns) →
    WF (wipeLoop l s) ∧ BalancedAt δ (wipeLoop l s)
  | [], _, _, hw, hb, _, _ => ⟨hw, hb⟩
  | t :: rest, s, δ, hw, hb, hnd, hmem => by
    rw [List.map_cons, List.nodup_cons] at hnd
    have ht : t ∈ s.txns := hmem t (List.mem_cons_self t rest)
    have hb1 := balancedAt_adjust (δ := δ) (s := s) t.userId (-t.amount) hb
    have hb2 := balancedAt_deleteRow
      (s := adjustBalance t.userId (-t.amount) s) (r := t) hw.2 ht hb1
    have hb3 : BalancedAt δ (deleteRow t.id (adjustBalance t.userId (-t.amount) s)) := by
      refine balancedAt_congr ?_ hb2
      intro x
      by_cases h : x = t.userId
      · rw [if_pos h, if_pos h]; ring
      · rw [if_neg h, if_neg h]; ring
    have hw3 : WF (deleteRow t.id (adjustBalance t.userId (-t.amount) s)) :=
      wf_deleteRow t.id hw
    have hrest : ∀ r ∈ rest,
        r ∈ (deleteRow t.id (adjustBalance t.userId (-t.amount) s)).txns := by
      intro r hr
      have hrs : r ∈ s.txns := hmem r (List.mem_cons_of_mem t hr)
      have hne : r.id ≠ t.id := by
        intro hc
        apply hnd.1
        rw [← hc]
        exact List.mem_map_of_mem Txn.id hr
      show r ∈ s.txns.filter fun x => decide (x.id ≠ t.id)
      exact List.mem_filter.mpr ⟨hrs, by simpa using hne⟩
    exact wipeLoop_inv rest _ δ hw3 hb3 hnd.2 hrest

theorem wipeLoop_txns_subset : ∀ (l : List Txn) (s : AppState) (x : Txn),
    x ∈ (wipeLoop l s).txns → x ∈ s.txns
  | [], _, _, hx => hx
  | t :: rest, s, x, hx => by
    have h1 := wipeLoop_txns_subset rest _ x hx
    have h2 : x ∈ s.txns.filter fun y => decide (y.id ≠ t.id) := h1
    exact List.mem_of_mem_filter h2

theorem recalcLoop_inv (a : ℚ) : ∀ (l : List Txn) (s : AppState) (δ : Nat → ℚ),
    WF s → BalancedAt δ s → (l.map Txn.id).Nodup → (∀ t ∈ l, t ∈ s.txns) →
    WF (recalcLoop a l s) ∧ BalancedAt δ (recalcLoop a l s)
  | [], _, _, hw, hb, _, _ => ⟨hw, hb⟩
  | sib :: rest, s, δ, hw, hb, hnd, hmem => by
    rw [List.map_cons, List.nodup_cons] at hnd
    have hsib : sib ∈ s.txns := hmem sib (List.mem_cons_self sib rest)
    have hb1 := balancedAt_adjust (δ := δ) (s := s) sib.userId (-sib.amount) hb
    have hb2 := balancedAt_adjust
      (s := adjustBalance sib.userId (-sib.amount) s) sib.userId a hb1
    have hb3 := balancedAt_mapRow
      (s := adjustBalance sib.userId a (adjustBalance sib.userId (-sib.amount) s))
      (r := sib) (fun t => { t with amount := a }) rfl hw.2 hsib hb2
    have hb4 : BalancedAt δ (setRowAmount sib.id a
        (adjustBalance sib.userId a (adjustBalance sib.userId (-sib.amount) s))) := by
      refine balancedAt_congr ?_ hb3
      intro x
      show ((δ x + if x = sib.userId then -sib.amount else 0)
          + if x = sib.userId then a else 0)
          + (if x = sib.userId then sib.amount - a else 0) = δ x
      by_cases h : x = sib.userId
      · rw [if_pos h, if_pos h, if_pos h]; ring
      · rw [if_neg h, if_neg h, if_neg h]; ring
    have hw4 : WF (setRowAmount sib.id a
        (adjustBalance sib.userId a (adjustBalance sib.userId (-sib.amount) s))) :=
      wf_mapRow sib.id (fun t => { t with amount := a }) (fun _ => rfl) hw
    have hrest : ∀ r ∈ rest, r ∈ (setRowAmount sib.id a
        (adjustBalance sib.userId a (adjustBalance sib.userId (-sib.amount) s))).txns := by
      intro r hr
      have hrs : r ∈ s.txns := hmem r (List.mem_cons_of_mem sib hr)
      have hne : r.id ≠ sib.id := by
        intro hc
        apply hnd.1
        rw [← hc]
        exact List.mem_map_of_mem Txn.id hr
      show r ∈ s.txns.map fun t => if t.id = sib.id then { t with amount := a } else t
      refine List.mem_map.mpr ⟨r, hrs, ?_⟩
      rw [if_neg hne]
    exact recalcLoop_inv a rest _ δ hw4 hb4 hnd.2 hrest

theorem recalcLoop_mem_of_ne (a : ℚ) : ∀ (l : List Txn) (s : AppState) (r : Txn),
    r ∈ s.txns → (∀ sib ∈ l, sib.id ≠ r.id) → r ∈ (recalcLoop a l s).txns
  | [], _, _, hr, _ => hr
  | sib :: rest, s, r, hr, hne => by
    refine recalcLoop_mem_of_ne a rest _ r ?_
      fun x hx => hne x (List.mem_cons_of_mem sib hx)
    show r ∈ s.txns.map fun t => if t.id = sib.id then { t with amount := a } else t
    refine List.mem_map.mpr ⟨r, hr, ?_⟩
    rw [if_neg fun hc => hne sib (List.mem_cons_self sib rest) hc.symm]

theorem recordPickleLoop_inv (aid : Nat) (per cost : ℚ) (g : Nat → Nat) (t : Nat) :
    ∀ (l : List Nat) (s : AppState) (δ : Nat → ℚ), WF s → BalancedAt δ s →
    WF (recordPickleLoop aid per cost g t l s)
      ∧ BalancedAt δ (recordPickleLoop aid per cost g t l s)
  | [], _, _, hw, hb => ⟨hw, hb⟩
  | uid :: rest, s, δ, hw, hb => by
    have hb1 := balancedAt_insert (δ := δ) aid uid expenseType
      (-(per * (headsOf g uid : ℚ))) (.pickle cost (headsOf g uid - 1)) t hb
    have hb2 := balancedAt_adjust
      (s := insertTxn s aid uid expenseType (-(per * (headsOf g uid : ℚ)))
        (.pickle cost (headsOf g uid - 1)) t)
      uid (-(per * (headsOf g uid : ℚ))) hb1
    have hb3 : BalancedAt δ (adjustBalance uid (-(per * (headsOf g uid : ℚ)))
        (insertTxn s aid uid expenseType (-(per * (headsOf g uid : ℚ)))
          (.pickle cost (headsOf g uid - 1)) t)) := by
      refine balancedAt_congr ?_ hb2
      intro x
      by_cases h : x = uid
      · rw [if_pos h]; ring
      · rw [if_neg h]; ring
    have hw3 : WF (adjustBalance uid (-(per * (headsOf g uid : ℚ)))
        (insertTxn s aid uid expenseType (-(per * (headsOf g uid : ℚ)))
          (.pickle cost (headsOf g uid - 1)) t)) :=
      wf_insertTxn aid uid expenseType (-(per * (headsOf g uid : ℚ)))
        (.pickle cost (headsOf g uid - 1)) t hw
    exact recordPickleLoop_inv aid per cost g t rest _ δ hw3 hb3

theorem updateInsertLoop_inv (aid : Nat) (per tc : ℚ) (g : Nat → Nat) (d : Nat) :
    ∀ (l : List Nat) (s : AppState) (δ : Nat → ℚ), WF s → BalancedAt δ s →
    WF (updateInsertLoop aid per tc g d l s)
      ∧ BalancedAt δ (updateInsertLoop aid per tc g d l s)
  | [], _, _, hw, hb => ⟨hw, hb⟩
  | uid :: rest, s, δ, hw, hb => by
    have hb1 := balancedAt_insert (δ := δ) aid uid expenseType
      (-(per * (headsOf g uid : ℚ))) (.pickle tc (headsOf g uid - 1)) d hb
    have hb2 := balancedAt_adjust
      (s := insertTxn s aid uid expenseType (-(per * (headsOf g uid : ℚ)))
        (.pickle tc (headsOf g uid - 1)) d)
      uid (-(per * (headsOf g uid : ℚ))) hb1
    have hb3 : BalancedAt δ (adjustBalance uid (-(per * (headsOf g uid : ℚ)))
        (insertTxn s aid uid expenseType (-(per * (headsOf g uid : ℚ)))
          (.pickle tc (headsOf g uid - 1)) d)) := by
      refine balancedAt_congr ?_ hb2
      intro x
      by_cases h : x = uid
      · rw [if_pos h]; ring
      · rw [if_neg h]; ring
    have hw3 : WF (adjustBalance uid (-(per * (headsOf g uid : ℚ)))
        (insertTxn s aid uid expenseType (-(per * (headsOf g uid : ℚ)))
          (.pickle tc (headsOf g uid - 1)) d)) :=
      wf_insertTxn aid uid expenseType (-(per * (headsOf g uid : ℚ)))
        (.pickle tc (headsOf g uid - 1)) d hw
    exact updateInsertLoop_inv aid per tc g d rest _ δ hw3 hb3

theorem recordBowlLoop_inv (aid : Nat) (cpg : ℚ) (t : Nat) :
    ∀ (l : List (Nat × Nat)) (s : AppState) (δ : Nat → ℚ), WF s → BalancedAt δ s →
    WF (recordBowlLoop aid cpg t l s) ∧ BalancedAt δ (recordBowlLoop aid cpg t l s)
  | [], _, _, hw, hb => ⟨hw, hb⟩
  | (userId, gameCount) :: rest, s, δ, hw, hb => by
    by_cases hgc : 0 < gameCount
    · have hb1 := balancedAt_insert (δ := δ) aid userId expenseType
        (-((gameCount : ℚ) * cpg)) (.bowl gameCount) t hb
      have hb2 := balancedAt_adjust
        (s := insertTxn s aid userId expenseType (-((gameCount : ℚ) * cpg))
          (.bowl gameCount) t)
        userId (-((gameCount : ℚ) * cpg)) hb1
      have hb3 : BalancedAt δ (adjustBalance userId (-((gameCount : ℚ) * cpg))
          (insertTxn s aid userId expenseType (-((gameCount : ℚ) * cpg))
            (.bowl gameCount) t)) := by
        refine balancedAt_congr ?_ hb2
        intro x
        by_cases h : x = userId
        · rw [if_pos h]; ring
        · rw [if_neg h]; ring
      have hw3 : WF (adjustBalance userId (-((gameCount : ℚ) * cpg))
          (insertTxn s aid userId expenseType (-((gameCount : ℚ) * cpg))
            (.bowl gameCount) t)) :=
        wf_insertTxn aid userId expenseType (-((gameCount : ℚ) * cpg))
          (.bowl gameCount) t hw
      have hrec := recordBowlLoop_inv aid cpg t rest _ δ hw3 hb3
      simpa [recordBowlLoop, if_pos hgc] using hrec
    · have hrec := recordBowlLoop_inv aid cpg t rest s δ hw hb
      simpa [recordBowlLoop, if_neg hgc] using hrec

/-! ### Route unfolding equations -/

theorem updateTxn_none {s : AppState} {i : Nat} (aid : Nat) (cpg : ℚ)
    (ngc : Option Nat) (na : Option ℚ) (su : Option (List Nat)) (g : Nat → Nat)
    (hfind : findTxn s i = none) : updateTxn aid cpg i ngc na su g s = s := by
  unfold updateTxn
  rw [hfind]

theorem updateTxn_pickle {s : AppState} {i : Nat} {oldT : Txn} (aid : Nat) (cpg : ℚ)
    (ngc : Option Nat) (na : Option ℚ) (userIds : List Nat) (g : Nat → Nat)
    (hfind : findTxn s i = some oldT) :
    updateTxn aid cpg i ngc na (some userIds) g s =
      (if 0 < (userIds.map (headsOf g)).sum
          ∧ 0 < recoverTotal na oldT.description (updSibList aid oldT s) then
         updateInsertLoop aid
           (recoverTotal na oldT.description (updSibList aid oldT s)
             / (((userIds.map (headsOf g)).sum : ℕ) : ℚ))
           (recoverTotal na oldT.description (updSibList aid oldT s)) g
           oldT.date userIds (wipeLoop (updSibList aid oldT s) s)
       else wipeLoop (updSibList aid oldT s) s) := by
  unfold updateTxn
  rw [hfind]

theorem updateTxn_normal {s : AppState} {i : Nat} {oldT : Txn} (aid : Nat) (cpg : ℚ)
    (ngc : Option Nat) (na : Option ℚ) (g : Nat → Nat)
    (hfind : findTxn s i = some oldT) :
    updateTxn aid cpg i ngc na none g s =
      (let s1 := adjustBalance oldT.userId (-oldT.amount) s
       let fin : ℚ × Desc :=
         match ngc with
         | some games => (-((games : ℚ) * cpg), Desc.bowl games)
         | none =>
           match na with
           | some val =>
             (if oldT.type = depositType then |val| else -|val|, oldT.description)
           | none => (0, oldT.description)
       adjustBalance oldT.userId fin.1 (setRowAmountDesc i fin.1 fin.2 s1)) := by
  unfold updateTxn
  rw [hfind]

theorem deleteTxn_none {s : AppState} {i : Nat} (aid : Nat)
    (hfind : findTxn s i = none) : deleteTxn aid i s = s := by
  unfold deleteTxn
  rw [hfind]

theorem deleteTxn_some {s : AppState} {i : Nat} {tgt : Txn} (aid : Nat)
    (hfind : findTxn s i = some tgt) :
    deleteTxn aid i s =
      voidRow i (.deleted tgt.description)
        (match matchTotal tgt.description with
         | some totalCost =>
           if 0 < (sibList aid i tgt (adjustBalance tgt.userId (-tgt.amount) s)).length then
             recalcLoop
               (-(totalCost / ((sibList aid i tgt
                   (adjustBalance tgt.userId (-tgt.amount) s)).length : ℚ)))
               (sibList aid i tgt (adjustBalance tgt.userId (-tgt.amount) s))
               (adjustBalance tgt.userId (-tgt.amount) s)
           else adjustBalance tgt.userId (-tgt.amount) s
         | none => adjustBalance tgt.userId (-tgt.amount) s) := by
  unfold deleteTxn
  rw [hfind]

/-! ### Per-route invariant preservation -/

theorem recordBowl_inv (aid : Nat) (cpg : ℚ) (games : List (Nat × Nat)) (t : Nat)
    {s : AppState} (hi : Inv s) : Inv (recordBowl aid cpg games t s) := by
  have h := recordBowlLoop_inv aid cpg t games s (fun _ => 0) hi.1 hi.2
  exact ⟨h.1, h.2⟩

theorem recordPickle_inv (aid : Nat) (tc : Option ℚ) (userIds : List Nat)
    (g : Nat → Nat) (t : Nat) {s : AppState} (hi : Inv s) :
    Inv (recordPickle aid tc userIds g t s) := by
  cases tc with
  | none => exact hi
  | some cost =>
    show Inv (if 0 < (userIds.map (headsOf g)).sum ∧ 0 < cost then
      recordPickleLoop aid (cost / (((userIds.map (headsOf g)).sum : ℕ) : ℚ)) cost
        g t userIds s else s)
    by_cases h : 0 < (userIds.map (headsOf g)).sum ∧ 0 < cost
    · rw [if_pos h]
      have hl := recordPickleLoop_inv aid
        (cost / (((userIds.map (headsOf g)).sum : ℕ) : ℚ)) cost g t userIds s
        (fun _ => 0) hi.1 hi.2
      exact ⟨hl.1, hl.2⟩
    · rw [if_neg h]
      exact hi

theorem depositOp_inv (aid uid : Nat) (amount : Option ℚ) (t : Nat)
    {s : AppState} (hi : Inv s) : Inv (depositOp aid uid amount t s) := by
  cases amount with
  | none => exact hi
  | some val =>
    show Inv (if val ≠ 0 then
      adjustBalance uid val (insertTxn s aid uid depositType val .depositNote t)
      else s)
    by_cases h : val ≠ 0
    · rw [if_pos h]
      constructor
      · exact wf_insertTxn aid uid depositType val .depositNote t hi.1
      · refine balancedAt_congr ?_
          (balancedAt_adjust uid val
            (balancedAt_insert aid uid depositType val .depositNote t hi.2))
        intro x
        by_cases hx : x = uid
        · rw [if_pos hx]; ring
        · rw [if_neg hx]; ring
    · rw [if_neg h]
      exact hi

theorem updateTxn_inv (aid : Nat) (cpg : ℚ) (i : Nat) (ngc : Option Nat)
    (na : Option ℚ) (su : Option (List Nat)) (g : Nat → Nat)
    {s : AppState} (hi : Inv s) : Inv (updateTxn aid cpg i ngc na su g s) := by
  cases hfind : findTxn s i with
  | none => rw [updateTxn_none aid cpg ngc na su g hfind]; exact hi
  | some oldT =>
    have hmem : oldT ∈ s.txns := findTxn_mem hfind
    have hid : oldT.id = i := findTxn_id hfind
    subst hid
    cases su with
    | some userIds =>
      rw [updateTxn_pickle aid cpg ngc na userIds g hfind]
      have hsub : List.Sublist (updSibList aid oldT s) s.txns :=
        List.filter_sublist s.txns
      have hnds : ((updSibList aid oldT s).map Txn.id).Nodup :=
        (hsub.map Txn.id).nodup hi.1.2
      have hmems : ∀ x ∈ updSibList aid oldT s, x ∈ s.txns :=
        fun x hx => List.mem_of_mem_filter hx
      have h1 := wipeLoop_inv (updSibList aid oldT s) s (fun _ => 0)
        hi.1 hi.2 hnds hmems
      show Inv (if 0 < (userIds.map (headsOf g)).sum
          ∧ 0 < recoverTotal na oldT.description (updSibList aid oldT s) then
        updateInsertLoop aid
          (recoverTotal na oldT.description (updSibList aid oldT s)
            / (((userIds.map (headsOf g)).sum : ℕ) : ℚ))
          (recoverTotal na oldT.description (updSibList aid oldT s)) g
          oldT.date userIds (wipeLoop (updSibList aid oldT s) s)
        else wipeLoop (updSibList aid oldT s) s)
      by_cases hg : 0 < (userIds.map (headsOf g)).sum
          ∧ 0 < recoverTotal na oldT.description (updSibList aid oldT s)
      · rw [if_pos hg]
        have h2 := updateInsertLoop_inv aid
          (recoverTotal na oldT.description (updSibList aid oldT s)
            / (((userIds.map (headsOf g)).sum : ℕ) : ℚ))
          (recoverTotal na oldT.description (updSibList aid oldT s)) g
          oldT.date userIds (wipeLoop (updSibList aid oldT s) s) (fun _ => 0)
          h1.1 h1.2
        exact ⟨h2.1, h2.2⟩
      · rw [if_neg hg]
        exact ⟨h1.1, h1.2⟩
    | none =>
      rw [updateTxn_normal aid cpg ngc na g hfind]
      show Inv (adjustBalance oldT.userId _
        (setRowAmountDesc oldT.id _ _ (adjustBalance oldT.userId (-oldT.amount) s)))
      generalize (match ngc with
         | some games => (-((games : ℚ) * cpg), Desc.bowl games)
         | none =>
           match na with
           | some val =>
             (if oldT.type = depositType then |val| else -|val|, oldT.description)
           | none => ((0 : ℚ), oldT.description) : ℚ × Desc) = fin
      have hb1 := balancedAt_adjust (δ := fun _ => 0) (s := s)
        oldT.userId (-oldT.amount) hi.2
      have hb2 := balancedAt_mapRow
        (s := adjustBalance oldT.userId (-oldT.amount) s) (r := oldT)
        (fun t => { t with amount := fin.1, description := fin.2 })
        rfl hi.1.2 hmem hb1
      have hb3 := balancedAt_adjust
        (s := setRowAmountDesc oldT.id fin.1 fin.2
          (adjustBalance oldT.userId (-oldT.amount) s))
        oldT.userId fin.1 hb2
      constructor
      · exact wf_mapRow oldT.id
          (fun t => { t with amount := fin.1, description := fin.2 })
          (fun _ => rfl) hi.1
      · refine balancedAt_congr ?_ hb3
        intro x
        show ((0 + if x = oldT.userId then -oldT.amount else 0)
            + if x = oldT.userId then oldT.amount - fin.1 else 0)
            + (if x = oldT.userId then fin.1 else 0) = 0
        by_cases hx : x = oldT.userId
        · rw [if_pos hx, if_pos hx, if_pos hx]; ring
        · rw [if_neg hx, if_neg hx, if_neg hx]; ring

theorem deleteTxn_inv (aid i : Nat) {s : AppState} (hi : Inv s) :
    Inv (deleteTxn aid i s) := by
  cases hfind : findTxn s i with
  | none => rw [deleteTxn_none aid hfind]; exact hi
  | some tgt =>
    have hmem : tgt ∈ s.txns := findTxn_mem hfind
    have hid : tgt.id = i := findTxn_id hfind
    subst hid
    rw [deleteTxn_some aid hfind]
    have hb1 := balancedAt_adjust (δ := fun _ => 0) (s := s)
      tgt.userId (-tgt.amount) hi.2
    have key : ∀ s2 : AppState, WF s2 → tgt ∈ s2.txns →
        BalancedAt (fun x => 0 + if x = tgt.userId then -tgt.amount else 0) s2 →
        Inv (voidRow tgt.id (.deleted tgt.description) s2) := by
      intro s2 hw2 hm2 hb2
      have hb3 := balancedAt_mapRow (s := s2) (r := tgt)
        (fun t => { t with type := voidType, amount := 0, description := Desc.deleted tgt.description })
        rfl hw2.2 hm2 hb2
      constructor
      · exact wf_mapRow tgt.id
          (fun t => { t with type := voidType, amount := 0, description := Desc.deleted tgt.description })
          (fun _ => rfl) hw2
      · refine balancedAt_congr ?_ hb3
        intro x
        show (0 + if x = tgt.userId then -tgt.amount else 0)
            + (if x = tgt.userId then tgt.amount - 0 else 0) = 0
        by_cases hx : x = tgt.userId
        · rw [if_pos hx, if_pos hx]; ring
        · rw [if_neg hx, if_neg hx]; ring
    cases hm : matchTotal tgt.description with
    | none => exact key _ hi.1 hmem hb1
    | some tc =>
      have hsub : List.Sublist (sibList aid tgt.id tgt
          (adjustBalance tgt.userId (-tgt.amount) s)) s.txns :=
        List.filter_sublist s.txns
      have hnds : ((sibList aid tgt.id tgt
          (adjustBalance tgt.userId (-tgt.amount) s)).map Txn.id).Nodup :=
        (hsub.map Txn.id).nodup hi.1.2
      have hmems : ∀ x ∈ sibList aid tgt.id tgt
          (adjustBalance tgt.userId (-tgt.amount) s), x ∈ s.txns :=
        fun x hx => List.mem_of_mem_filter hx
      have hne : ∀ sib ∈ sibList aid tgt.id tgt
          (adjustBalance tgt.userId (-tgt.amount) s), sib.id ≠ tgt.id := by
        intro sib hsib
        have := (List.mem_filter.mp hsib).2
        rw [decide_eq_true_iff] at this
        exact this.2.2.2.1
      show Inv (voidRow tgt.id (.deleted tgt.description)
        (if 0 < (sibList aid tgt.id tgt
            (adjustBalance tgt.userId (-tgt.amount) s)).length then
          recalcLoop (-(tc / ((sibList aid tgt.id tgt
              (adjustBalance tgt.userId (-tgt.amount) s)).length : ℚ)))
            (sibList aid tgt.id tgt (adjustBalance tgt.userId (-tgt.amount) s))
            (adjustBalance tgt.userId (-tgt.amount) s)
          else adjustBalance tgt.userId (-tgt.amount) s))
      by_cases hlen : 0 < (sibList aid tgt.id tgt
          (adjustBalance tgt.userId (-tgt.amount) s)).length
      · rw [if_pos hlen]
        have h2 := recalcLoop_inv
          (-(tc / ((sibList aid tgt.id tgt
              (adjustBalance tgt.userId (-tgt.amount) s)).length : ℚ)))
          (sibList aid tgt.id tgt (adjustBalance tgt.userId (-tgt.amount) s))
          (adjustBalance tgt.userId (-tgt.amount) s) _ hi.1 hb1 hnds hmems
        have hm2 := recalcLoop_mem_of_ne
          (-(tc / ((sibList aid tgt.id tgt
              (adjustBalance tgt.userId (-tgt.amount) s)).length : ℚ)))
          (sibList aid tgt.id tgt (adjustBalance tgt.userId (-tgt.amount) s))
          (adjustBalance tgt.userId (-tgt.amount) s) tgt hmem hne
        exact key _ h2.1 hm2 h2.2
      · rw [if_neg hlen]
        exact key _ hi.1 hmem hb1

theorem applyOp_inv (s : AppState) (op : Op) (hi : Inv s) : Inv (applyOp s op) := by
  cases op with
  | opRecordBowl aid cpg games t => exact recordBowl_inv aid cpg games t hi
  | opRecordPickle aid tc userIds g t => exact recordPickle_inv aid tc userIds g t hi
  | opDeposit aid uid amount t => exact depositOp_inv aid uid amount t hi
  | opUpdate aid cpg i ngc na su g => exact updateTxn_inv aid cpg i ngc na su g hi
  | opDelete aid i => exact deleteTxn_inv aid i hi

theorem runOps_inv : ∀ (ops : List Op) (s : AppState), Inv s → Inv (runOps s ops)
  | [], _, hi => hi
  | op :: rest, s, hi => runOps_inv rest (applyOp s op) (applyOp_inv s op hi)

/-! ### Allocation characterizations -/

theorem recordPickleLoop_txns (aid : Nat) (per cost : ℚ) (g : Nat → Nat) (t : Nat) :
    ∀ (l : List Nat) (s : AppState),
    (recordPickleLoop aid per cost g t l s).txns
      = s.txns ++ pickleRows aid per cost g t l s.nextId
  | [], s => by simp [recordPickleLoop, pickleRows]
  | uid :: rest, s => by
    show (recordPickleLoop aid per cost g t rest
      (adjustBalance uid (-(per * (headsOf g uid : ℚ)))
        (insertTxn s aid uid expenseType (-(per * (headsOf g uid : ℚ)))
          (.pickle cost (headsOf g uid - 1)) t))).txns = _
    rw [recordPickleLoop_txns aid per cost g t rest _]
    show (s.txns ++ [⟨s.nextId, aid, uid, expenseType, -(per * (headsOf g uid : ℚ)),
        .pickle cost (headsOf g uid - 1), t⟩])
      ++ pickleRows aid per cost g t rest (s.nextId + 1)
      = s.txns ++ pickleRows aid per cost g t (uid :: rest) s.nextId
    rw [List.append_assoc, List.singleton_append]
    rfl

theorem updateInsertLoop_txns (aid : Nat) (per tc : ℚ) (g : Nat → Nat) (d : Nat) :
    ∀ (l : List Nat) (s : AppState),
    (updateInsertLoop aid per tc g d l s).txns
      = s.txns ++ pickleRows aid per tc g d l s.nextId
  | [], s => by simp [updateInsertLoop, pickleRows]
  | uid :: rest, s => by
    show (updateInsertLoop aid per tc g d rest
      (adjustBalance uid (-(per * (headsOf g uid : ℚ)))
        (insertTxn s aid uid expenseType (-(per * (headsOf g uid : ℚ)))
          (.pickle tc (headsOf g uid - 1)) d))).txns = _
    rw [updateInsertLoop_txns aid per tc g d rest _]
    show (s.txns ++ [⟨s.nextId, aid, uid, expenseType, -(per * (headsOf g uid : ℚ)),
        .pickle tc (headsOf g uid - 1), d⟩])
      ++ pickleRows aid per tc g d rest (s.nextId + 1)
      = s.txns ++ pickleRows aid per tc g d (uid :: rest) s.nextId
    rw [List.append_assoc, List.singleton_append]
    rfl

theorem pickleRows_amount_sum (aid : Nat) (per cost : ℚ) (g : Nat → Nat) (t : Nat) :
    ∀ (l : List Nat) (n : Nat),
    ((pickleRows aid per cost g t l n).map Txn.amount).sum
      = -(per * (((l.map (headsOf g)).sum : ℕ) : ℚ))
  | [], n => by simp [pickleRows]
  | uid :: rest, n => by
    show (-(per * (headsOf g uid : ℚ))
        :: (pickleRows aid per cost g t rest (n + 1)).map Txn.amount).sum = _
    rw [List.sum_cons, pickleRows_amount_sum aid per cost g t rest (n + 1)]
    push_cast [List.map_cons, List.sum_cons]
    ring

theorem pickleRows_proj (aid : Nat) (per cost : ℚ) (g : Nat → Nat) (t : Nat) :
    ∀ (l : List Nat) (n : Nat),
    (pickleRows aid per cost g t l n).map (fun r => (r.userId, r.amount))
      = l.map fun uid => (uid, -(per * (headsOf g uid : ℚ)))
  | [], _ => rfl
  | uid :: rest, n => by
    show ((uid, -(per * (headsOf g uid : ℚ)))
        :: (pickleRows aid per cost g t rest (n + 1)).map fun r => (r.userId, r.amount))
      = _
    rw [List.map_cons, pickleRows_proj aid per cost g t rest (n + 1)]

theorem heads_sum_pos (g : Nat → Nat) :
    ∀ l : List Nat, l ≠ [] → 0 < (l.map (headsOf g)).sum
  | [], h => absurd rfl h
  | uid :: rest, _ => by
    rw [List.map_cons, List.sum_cons]
    have h1 : 0 < headsOf g uid := by
      show 0 < 1 + g uid
      omega
    omega

theorem updateInsertLoop_mem (aid : Nat) (per tc : ℚ) (g : Nat → Nat) (d : Nat) :
    ∀ (l : List Nat) (s : AppState) (x : Txn),
    x ∈ (updateInsertLoop aid per tc g d l s).txns → x ∈ s.txns ∨ x.date = d
  | [], _, _, hx => Or.inl hx
  | uid :: rest, s, x, hx => by
    rcases updateInsertLoop_mem aid per tc g d rest _ x hx with h | h
    · have h' : x ∈ s.txns ++ [⟨s.nextId, aid, uid, expenseType,
          -(per * (headsOf g uid : ℚ)), .pickle tc (headsOf g uid - 1), d⟩] := h
      rcases List.mem_append.mp h' with h1 | h1
      · exact Or.inl h1
      · rw [List.mem_singleton] at h1
        subst h1
        exact Or.inr rfl
    · exact Or.inr h

/-! ### Lookup lemmas -/

theorem findUser_adjust (w : Nat) (d : ℚ) (s : AppState) (uid : Nat) :
    findUser (adjustBalance w d s) uid
      = (findUser s uid).map fun u =>
          if u.id = w then { u with balance := u.balance + d } else u := by
  show ((s.users.map fun u =>
      if u.id = w then { u with balance := u.balance + d } else u).find?
        fun u => decide (u.id = uid)) = _
  rw [List.find?_map]
  have hpq : ((fun u : User => decide (u.id = uid)) ∘ fun u =>
      if u.id = w then { u with balance := u.balance + d } else u)
      = fun u : User => decide (u.id = uid) := by
    funext u
    rw [Function.comp_apply]
    by_cases h : u.id = w
    · rw [if_pos h]
    · rw [if_neg h]
  rw [hpq]
  rfl

theorem findUser_adjust_ne (w w' : Nat) (d : ℚ) (s : AppState) (hne : w' ≠ w) :
    findUser (adjustBalance w' d s) w = findUser s w := by
  rw [findUser_adjust]
  cases h : findUser s w with
  | none => rfl
  | some u =>
    rw [Option.map_some']
    rw [if_neg (by rw [findUser_id h]; exact fun hc => hne hc.symm)]

theorem find?_id_of_nodup :
    ∀ ts : List Txn, (ts.map Txn.id).Nodup → ∀ r ∈ ts,
    (ts.find? fun t => decide (t.id = r.id)) = some r
  | [], _, r, hr => absurd hr (List.not_mem_nil r)
  | t :: ts, hnd, r, hr => by
    rw [List.map_cons, List.nodup_cons] at hnd
    by_cases hid : t.id = r.id
    · have hrt : r = t := by
        rcases List.mem_cons.mp hr with h | h
        · exact h
        · exfalso
          apply hnd.1
          rw [hid]
          exact List.mem_map_of_mem Txn.id h
      subst hrt
      rw [List.find?_cons_of_pos _ (by simp)]
    · have hr' : r ∈ ts := by
        rcases List.mem_cons.mp hr with h | h
        · exact absurd (congrArg Txn.id h).symm hid
        · exact h
      rw [List.find?_cons_of_neg _ (by simp [hid]), find?_id_of_nodup ts hnd.2 r hr']

theorem find?_id_map (ts : List Txn) (f : Txn → Txn) (hf : ∀ t, (f t).id = t.id)
    (k : Nat) :
    ((ts.map f).find? fun t => decide (t.id = k))
      = (ts.find? fun t => decide (t.id = k)).map f := by
  rw [List.find?_map]
  have hpq : ((fun t : Txn => decide (t.id = k)) ∘ f)
      = fun t : Txn => decide (t.id = k) := by
    funext t
    rw [Function.comp_apply]
    rw [show (f t).id = t.id from hf t]
  rw [hpq]

theorem eq_of_id_eq {ts : List Txn} (hnd : (ts.map Txn.id).Nodup)
    {r x : Txn} (hr : r ∈ ts) (hx : x ∈ ts) (h : r.id = x.id) : r = x := by
  have h1 := find?_id_of_nodup ts hnd r hr
  have h2 := find?_id_of_nodup ts hnd x hx
  rw [h] at h1
  rw [h1] at h2
  exact Option.some_injective _ h2

/-! ### Frame lemmas for the delete recalculation -/

theorem recalcLoop_txns (a : ℚ) :
    ∀ (l : List Txn) (s : AppState), (l.map Txn.id).Nodup →
    (recalcLoop a l s).txns
      = s.txns.map fun t =>
          if t.id ∈ l.map Txn.id then { t with amount := a } else t
  | [], s, _ => by
    rw [show (recalcLoop a [] s).txns = s.txns from rfl]
    rw [map_eq_self_of _ s.txns fun x _ => by
      rw [if_neg (show x.id ∉ List.map Txn.id [] by simp)]]
  | sib :: rest, s, hnd => by
    rw [List.map_cons, List.nodup_cons] at hnd
    show (recalcLoop a rest (setRowAmount sib.id a
      (adjustBalance sib.userId a (adjustBalance sib.userId (-sib.amount) s)))).txns
      = _
    rw [recalcLoop_txns a rest _ hnd.2]
    show (s.txns.map fun t => if t.id = sib.id then { t with amount := a } else t).map
        (fun t => if t.id ∈ rest.map Txn.id then { t with amount := a } else t)
      = s.txns.map fun t =>
          if t.id ∈ sib.id :: rest.map Txn.id then { t with amount := a } else t
    rw [List.map_map]
    refine map_ext_of _ _ s.txns fun t _ => ?_
    rw [Function.comp_apply]
    by_cases h1 : t.id = sib.id
    · rw [if_pos h1]
      show (if t.id ∈ rest.map Txn.id then _ else _) = _
      rw [if_neg (by rw [h1]; exact hnd.1),
        if_pos (by rw [h1]; exact List.mem_cons_self _ _)]
    · rw [if_neg h1]
      by_cases h2 : t.id ∈ rest.map Txn.id
      · rw [if_pos h2, if_pos (List.mem_cons_of_mem _ h2)]
      · rw [if_neg h2, if_neg (by
          intro hc
          rcases List.mem_cons.mp hc with hc1 | hc1
          · exact h1 hc1
          · exact h2 hc1)]

theorem recalcLoop_findUser_of_ne (a : ℚ) :
    ∀ (l : List Txn) (s : AppState) (w : Nat),
    (∀ sib ∈ l, sib.userId ≠ w) →
    findUser (recalcLoop a l s) w = findUser s w
  | [], _, _, _ => rfl
  | sib :: rest, s, w, hne => by
    show findUser (recalcLoop a rest (setRowAmount sib.id a
      (adjustBalance sib.userId a (adjustBalance sib.userId (-sib.amount) s)))) w = _
    rw [recalcLoop_findUser_of_ne a rest _ w
      fun x hx => hne x (List.mem_cons_of_mem sib hx)]
    show findUser (adjustBalance sib.userId a (adjustBalance sib.userId (-sib.amount) s)) w
      = findUser s w
    rw [findUser_adjust_ne _ _ _ _ (hne sib (List.mem_cons_self sib rest)),
      findUser_adjust_ne _ _ _ _ (hne sib (List.mem_cons_self sib rest))]

theorem recordPickleLoop_findUser (aid : Nat) (per cost : ℚ) (g : Nat → Nat) (t : Nat) :
    ∀ (l : List Nat) (s : AppState) (w : Nat) (u : User), findUser s w = some u →
    ∃ u', findUser (recordPickleLoop aid per cost g t l s) w = some u'
      ∧ u'.id = u.id
      ∧ u'.balance = u.balance
          - ((l.filter fun x => decide (x = w)).map
              fun uid => per * (headsOf g uid : ℚ)).sum
  | [], s, w, u, hu => ⟨u, hu, rfl, by simp⟩
  | uid :: rest, s, w, u, hu => by
    have hid := findUser_id hu
    have hstep : findUser (adjustBalance uid (-(per * (headsOf g uid : ℚ)))
        (insertTxn s aid uid expenseType (-(per * (headsOf g uid : ℚ)))
          (.pickle cost (headsOf g uid - 1)) t)) w
        = some (if u.id = uid
            then { u with balance := u.balance + -(per * (headsOf g uid : ℚ)) }
            else u) := by
      rw [findUser_adjust]
      have hu' : findUser (insertTxn s aid uid expenseType
          (-(per * (headsOf g uid : ℚ))) (.pickle cost (headsOf g uid - 1)) t) w
          = some u := hu
      rw [hu', Option.map_some']
    rcases recordPickleLoop_findUser aid per cost g t rest _ w _ hstep
      with ⟨u', hfind, hid', hbal⟩
    refine ⟨u', hfind, ?_, ?_⟩
    · rw [hid']
      by_cases h : u.id = uid
      · rw [if_pos h]
      · rw [if_neg h]
    · rw [hbal]
      by_cases huw : uid = w
      · have hcond : u.id = uid := by rw [hid, huw]
        rw [if_pos hcond, List.filter_cons_of_pos (by simpa using huw),
          List.map_cons, List.sum_cons]
        show u.balance + -(per * (headsOf g uid : ℚ)) - _
          = u.balance - (per * (headsOf g uid : ℚ) + _)
        ring
      · have hcond : ¬u.id = uid := by
          rw [hid]
          exact fun hc => huw hc.symm
        rw [if_neg hcond, List.filter_cons_of_neg (by simpa using huw)]

theorem filter_eq_singleton_of_nodup :
    ∀ (l : List Nat) (w : Nat), l.Nodup → w ∈ l →
    (l.filter fun x => decide (x = w)) = [w]
  | [], _, _, h => absurd h (List.not_mem_nil _)
  | a :: l, w, hnd, hmem => by
    rw [List.nodup_cons] at hnd
    by_cases ha : a = w
    · subst ha
      rw [List.filter_cons_of_pos (by simp)]
      have : (l.filter fun x => decide (x = a)) = [] := by
        rw [List.filter_eq_nil]
        intro x hx
        simp only [decide_eq_true_iff]
        intro hc
        subst hc
        exact hnd.1 hx
      rw [this]
    · have hw : w ∈ l := by
        rcases List.mem_cons.mp hmem with h | h
        · exact absurd h.symm ha
        · exact h
      rw [List.filter_cons_of_neg (by simpa using ha)]
      exact filter_eq_singleton_of_nodup l w hnd.2 hw

theorem findTxn_voidRow_self {s2 : AppState} {tgt : Txn} (d : Desc)
    (h : findTxn s2 tgt.id = some tgt) :
    findTxn (voidRow tgt.id d s2) tgt.id
      = some { tgt with type := voidType, amount := 0, description := d } := by
  show ((s2.txns.map fun t =>
      if t.id = tgt.id then { t with type := voidType, amount := 0, description := d } else t).find?
        fun t => decide (t.id = tgt.id)) = _
  rw [find?_id_map s2.txns _ (fun t => by
      by_cases hc : t.id = tgt.id
      · rw [if_pos hc]
      · rw [if_neg hc]) tgt.id]
  rw [show (s2.txns.find? fun t => decide (t.id = tgt.id)) = some tgt from h,
    Option.map_some', if_pos rfl]

/-! ### Claim theorems -/

/-- **C1.**  For every user and every sequence of operations (record,
deposit, update-transaction, delete-transaction) starting from a
well-formed balanced state, the stored balance of every user equals the
sum of that user's transaction amounts (voided rows carry amount 0): each
operation applies to the owning user's balance exactly the delta it
applies to that user's rows. -/
theorem claim1_balance_invariant (s : AppState) (ops : List Op) (hs : Inv s) :
    ∀ u ∈ (runOps s ops).users, u.balance = txnSum u.id (runOps s ops).txns := by
  intro u hu
  have h := (runOps_inv ops s hs).2 u hu
  simpa using h

/-- Witness for C1 at a concrete state and a concrete operation sequence
exercising deposit, weighted split record, batch reconciliation and soft
delete. -/
theorem claim1_witness :
    Inv stateC1 ∧ ∀ u ∈ (runOps stateC1 opsC1).users,
      u.balance = txnSum u.id (runOps stateC1 opsC1).txns :=
  ⟨by with_unfolding_all decide,
   claim1_balance_invariant stateC1 opsC1 (by with_unfolding_all decide)⟩

/-- **C2.**  For every totalCost > 0 and non-empty participant list (weight
of a member = 1 + guest count ≥ 1), the shares written by the allocation
sum to totalCost within tolerance 1e-9 (in the exact rational model the
written amounts sum to −totalCost, hence the discrepancy is 0). -/
theorem claim2_shares_sum (aid : Nat) (cost : ℚ) (userIds : List Nat)
    (guests : Nat → Nat) (t : Nat) (s : AppState)
    (hc : 0 < cost) (hne : userIds ≠ []) :
    |(((recordPickle aid (some cost) userIds guests t s).txns.drop
        s.txns.length).map Txn.amount).sum + cost| ≤ 1 / 1000000000 := by
  have hH : 0 < (userIds.map (headsOf guests)).sum := heads_sum_pos guests userIds hne
  have hguard : 0 < (userIds.map (headsOf guests)).sum ∧ 0 < cost := ⟨hH, hc⟩
  show |(((if 0 < (userIds.map (headsOf guests)).sum ∧ 0 < cost then
      recordPickleLoop aid (cost / (((userIds.map (headsOf guests)).sum : ℕ) : ℚ))
        cost guests t userIds s else s).txns.drop s.txns.length).map Txn.amount).sum
      + cost| ≤ 1 / 1000000000
  rw [if_pos hguard, recordPickleLoop_txns, List.drop_left, pickleRows_amount_sum]
  have hne' : (((userIds.map (headsOf guests)).sum : ℕ) : ℚ) ≠ 0 :=
    Nat.cast_ne_zero.mpr (Nat.pos_iff_ne_zero.mp hH)
  rw [div_mul_cancel₀ cost hne']
  norm_num

/-- Witness for C2: total 90 split over members 1 and 2, member 2 bringing
one guest. -/
theorem claim2_witness :
    (0 : ℚ) < 90 ∧ ([1, 2] : List Nat) ≠ [] ∧
    |(((recordPickle 1 (some 90) [1, 2] guestsC2 5 stateC2).txns.drop
        stateC2.txns.length).map Txn.amount).sum + 90| ≤ 1 / 1000000000 :=
  ⟨by norm_num, by decide,
   claim2_shares_sum 1 90 [1, 2] guestsC2 5 stateC2 (by norm_num) (by decide)⟩

/-- **C3.**  For every allocation event with totalCost > 0, the rows
written by the record route are exactly one expense per participant with
amount the negated weighted share −(totalCost / Σ weights · w_i)
(`pickleRows` spells this out), and the owning participant's balance is
decreased by that share. -/
theorem claim3_weighted_shares (aid : Nat) (cost : ℚ) (userIds : List Nat)
    (guests : Nat → Nat) (t : Nat) (s : AppState) (uid : Nat) (u : User)
    (hc : 0 < cost) (hne : userIds ≠ []) (hnd : userIds.Nodup)
    (hu : findUser s uid = some u) (hmem : uid ∈ userIds) :
    (recordPickle aid (some cost) userIds guests t s).txns
      = s.txns ++ pickleRows aid
          (cost / (((userIds.map (headsOf guests)).sum : ℕ) : ℚ)) cost guests t
          userIds s.nextId
    ∧ ∃ u', findUser (recordPickle aid (some cost) userIds guests t s) uid = some u'
        ∧ u'.balance = u.balance
            - (cost / (((userIds.map (headsOf guests)).sum : ℕ) : ℚ))
              * (headsOf guests uid : ℚ) := by
  have hH : 0 < (userIds.map (headsOf guests)).sum := heads_sum_pos guests userIds hne
  have hguard : 0 < (userIds.map (headsOf guests)).sum ∧ 0 < cost := ⟨hH, hc⟩
  have heq : recordPickle aid (some cost) userIds guests t s
      = recordPickleLoop aid
          (cost / (((userIds.map (headsOf guests)).sum : ℕ) : ℚ)) cost guests t
          userIds s := by
    show (if 0 < (userIds.map (headsOf guests)).sum ∧ 0 < cost then
        recordPickleLoop aid
          (cost / (((userIds.map (headsOf guests)).sum : ℕ) : ℚ)) cost guests t
          userIds s
      else s) = _
    rw [if_pos hguard]
  constructor
  · rw [heq, recordPickleLoop_txns]
  · rcases recordPickleLoop_findUser aid
        (cost / (((userIds.map (headsOf guests)).sum : ℕ) : ℚ)) cost guests t
        userIds s uid u hu with ⟨u', hfind, _, hbal⟩
    refine ⟨u', by rw [heq]; exact hfind, ?_⟩
    rw [hbal, filter_eq_singleton_of_nodup userIds uid hnd hmem]
    simp

/-- Witness for C3: total 90 over members 1 (weight 1) and 2 (weight 2);
member 2's share is 90/3·2 = 60. -/
theorem claim3_witness :
    (0 : ℚ) < 90 ∧ findUser stateC3 2 = some ⟨2, 1, 0⟩ ∧
    ((recordPickle 1 (some 90) [1, 2] guestsC3 5 stateC3).txns
      = stateC3.txns ++ pickleRows 1
          (90 / ((([1, 2].map (headsOf guestsC3)).sum : ℕ) : ℚ)) 90 guestsC3 5
          [1, 2] stateC3.nextId
    ∧ ∃ u', findUser (recordPickle 1 (some 90) [1, 2] guestsC3 5 stateC3) 2 = some u'
        ∧ u'.balance = (⟨2, 1, 0⟩ : User).balance
            - (90 / ((([1, 2].map (headsOf guestsC3)).sum : ℕ) : ℚ))
              * (headsOf guestsC3 2 : ℚ)) :=
  ⟨by norm_num, by with_unfolding_all decide,
   claim3_weighted_shares 1 90 [1, 2] guestsC3 5 stateC3 2 ⟨2, 1, 0⟩
     (by norm_num) (by decide) (by decide) (by with_unfolding_all decide)
     (by decide)⟩

/-- **C9.**  Reconciling with the same total and the same weights as the
original allocation is share-preserving: the reinsert loop of the update
route produces, for any starting state and any kept timestamp, exactly the
same (participant, charged amount) pairs as the record route's insert loop
with the same per-head cost and weights. -/
theorem claim9_same_shares (aid aid' : Nat) (per cost : ℚ) (guests : Nat → Nat)
    (t d : Nat) (l : List Nat) (s s' : AppState) :
    (((recordPickleLoop aid per cost guests t l s).txns.drop s.txns.length).map
        fun r => (r.userId, r.amount))
      = (((updateInsertLoop aid' per cost guests d l s').txns.drop
          s'.txns.length).map fun r => (r.userId, r.amount)) := by
  rw [recordPickleLoop_txns, updateInsertLoop_txns, List.drop_left, List.drop_left,
    pickleRows_proj, pickleRows_proj]

/-- **C8.**  Batch reconciliation keeps the batch identity key: every row
present after the update route's pickleball branch is either an untouched
pre-existing row or a newly inserted row carrying exactly the old batch
timestamp. -/
theorem claim8_same_timestamp (aid : Nat) (cpg : ℚ) (i : Nat) (ngc : Option Nat)
    (na : Option ℚ) (userIds : List Nat) (guests : Nat → Nat) (s : AppState)
    (oldT : Txn) (hfind : findTxn s i = some oldT) :
    ∀ r ∈ (updateTxn aid cpg i ngc na (some userIds) guests s).txns,
      r ∈ s.txns ∨ r.date = oldT.date := by
  rw [updateTxn_pickle aid cpg ngc na userIds guests hfind]
  by_cases hg : 0 < (userIds.map (headsOf guests)).sum
      ∧ 0 < recoverTotal na oldT.description (updSibList aid oldT s)
  · rw [if_pos hg]
    intro r hr
    rcases updateInsertLoop_mem aid
        (recoverTotal na oldT.description (updSibList aid oldT s)
          / (((userIds.map (headsOf guests)).sum : ℕ) : ℚ))
        (recoverTotal na oldT.description (updSibList aid oldT s)) guests
        oldT.date userIds (wipeLoop (updSibList aid oldT s) s) r hr with h | h
    · exact Or.inl (wipeLoop_txns_subset _ _ r h)
    · exact Or.inr h
  · rw [if_neg hg]
    intro r hr
    exact Or.inl (wipeLoop_txns_subset _ _ r hr)

/-- Witness for C8: rewriting the two-member batch of `stateC8` with the
explicit new total 120 only produces rows at the old timestamp 5. -/
theorem claim8_witness :
    findTxn stateC8 1 = some ⟨1, 1, 1, expenseType, -45, .pickle 90 0, 5⟩
    ∧ ∀ r ∈ (updateTxn 1 0 1 none (some 120) (some [1, 2]) guestsC8 stateC8).txns,
        r ∈ stateC8.txns
          ∨ r.date = (⟨1, 1, 1, expenseType, -45, .pickle 90 0, 5⟩ : Txn).date :=
  ⟨by with_unfolding_all decide,
   claim8_same_timestamp 1 0 1 none (some 120) [1, 2] guestsC8 stateC8
     ⟨1, 1, 1, expenseType, -45, .pickle 90 0, 5⟩ (by with_unfolding_all decide)⟩

/-- **C4 counterexample.**  In the two-member batch of `stateC4` (total 90,
weights 1 and 2, weight-sum S = 3), deleting member 1's row (weight w = 1,
reduced sum S' = 2) should per the claim set member 2's share to
(90 / S')·2 = 90, amount −90.  The code leaves member 2's row at −60: only
rows with the identical description string are recalculated, and member
2's description (1 guest) differs from the target's, so nothing changes. -/
theorem claim4_counterexample :
    findTxn (deleteTxn 1 1 stateC4) 2
      = some ⟨2, 1, 2, expenseType, -60, .pickle 90 1, 5⟩
    ∧ (-60 : ℚ) ≠ -((90 : ℚ) / 2) * 2 := by
  constructor
  · with_unfolding_all decide
  · norm_num

/-- **C4 amended.**  On delete of a batch row whose description embeds a
total T, only the non-void siblings with the identical description and
timestamp are recalculated, and each of them is set to the equal split
−T/n where n is the count of those siblings (weights play no role); every
other row except the target keeps its exact content. -/
theorem claim4_amended (aid i : Nat) (s : AppState) (tgt : Txn) (T : ℚ)
    (hw : WF s) (hfind : findTxn s i = some tgt)
    (hm : matchTotal tgt.description = some T)
    (hlen : 0 < (sibList aid i tgt s).length) :
    (∀ sib ∈ sibList aid i tgt s,
       findTxn (deleteTxn aid i s) sib.id
         = some { sib with amount := -(T / ((sibList aid i tgt s).length : ℚ)) })
    ∧ ∀ r ∈ s.txns, r.id ≠ i → r ∉ sibList aid i tgt s →
        findTxn (deleteTxn aid i s) r.id = some r := by
  have hid := findTxn_id hfind
  subst hid
  have hmem := findTxn_mem hfind
  rw [deleteTxn_some aid hfind]
  simp only [hm]
  have hlen' : 0 < (sibList aid tgt.id tgt
      (adjustBalance tgt.userId (-tgt.amount) s)).length := hlen
  rw [if_pos hlen']
  have hsub : List.Sublist (sibList aid tgt.id tgt
      (adjustBalance tgt.userId (-tgt.amount) s)) s.txns :=
    List.filter_sublist s.txns
  have hnds : ((sibList aid tgt.id tgt
      (adjustBalance tgt.userId (-tgt.amount) s)).map Txn.id).Nodup :=
    (hsub.map Txn.id).nodup hw.2
  have htxns := recalcLoop_txns
    (-(T / ((sibList aid tgt.id tgt
        (adjustBalance tgt.userId (-tgt.amount) s)).length : ℚ)))
    (sibList aid tgt.id tgt (adjustBalance tgt.userId (-tgt.amount) s))
    (adjustBalance tgt.userId (-tgt.amount) s) hnds
  have hG : ∀ t : Txn, ((fun t : Txn => if t.id = tgt.id
      then { t with type := voidType, amount := 0, description := Desc.deleted tgt.description }
      else t) t).id = t.id := by
    intro t
    dsimp only
    by_cases hc : t.id = tgt.id
    · rw [if_pos hc]
    · rw [if_neg hc]
  have hF : ∀ t : Txn, ((fun t : Txn => if t.id ∈ (sibList aid tgt.id tgt
      (adjustBalance tgt.userId (-tgt.amount) s)).map Txn.id
      then { t with amount := -(T / ((sibList aid tgt.id tgt (adjustBalance tgt.userId (-tgt.amount) s)).length : ℚ)) }
      else t) t).id
      = t.id := by
    intro t
    dsimp only
    by_cases hc : t.id ∈ (sibList aid tgt.id tgt
        (adjustBalance tgt.userId (-tgt.amount) s)).map Txn.id
    · rw [if_pos hc]
    · rw [if_neg hc]
  have hfind_all : ∀ k : Nat,
      findTxn (voidRow tgt.id (.deleted tgt.description)
        (recalcLoop (-(T / ((sibList aid tgt.id tgt
            (adjustBalance tgt.userId (-tgt.amount) s)).length : ℚ)))
          (sibList aid tgt.id tgt (adjustBalance tgt.userId (-tgt.amount) s))
          (adjustBalance tgt.userId (-tgt.amount) s))) k
      = (((s.txns.find? fun t => decide (t.id = k)).map
          fun t => if t.id ∈ (sibList aid tgt.id tgt
            (adjustBalance tgt.userId (-tgt.amount) s)).map Txn.id
            then { t with amount := -(T / ((sibList aid tgt.id tgt (adjustBalance tgt.userId (-tgt.amount) s)).length : ℚ)) }
            else t).map
          fun t => if t.id = tgt.id
            then { t with type := voidType, amount := 0, description := Desc.deleted tgt.description }
            else t) := by
    intro k
    show (((recalcLoop (-(T / ((sibList aid tgt.id tgt
        (adjustBalance tgt.userId (-tgt.amount) s)).length : ℚ)))
        (sibList aid tgt.id tgt (adjustBalance tgt.userId (-tgt.amount) s))
        (adjustBalance tgt.userId (-tgt.amount) s)).txns.map
        fun t => if t.id = tgt.id
          then { t with type := voidType, amount := 0, description := Desc.deleted tgt.description }
          else t).find?
        fun t => decide (t.id = k)) = _
    rw [htxns, adjustBalance_txns, find?_id_map _ _ hG k, find?_id_map _ _ hF k]
  constructor
  · intro sib hsib
    have hsib1 : sib ∈ sibList aid tgt.id tgt
        (adjustBalance tgt.userId (-tgt.amount) s) := hsib
    have hsibm : sib ∈ s.txns := List.mem_of_mem_filter hsib1
    have hsib_ne : sib.id ≠ tgt.id := by
      have hc := (List.mem_filter.mp hsib1).2
      rw [decide_eq_true_iff] at hc
      exact hc.2.2.2.1
    rw [hfind_all sib.id, find?_id_of_nodup s.txns hw.2 sib hsibm,
      Option.map_some', if_pos (List.mem_map_of_mem Txn.id hsib1),
      Option.map_some']
    rw [if_neg (show ¬(({ sib with amount := -(T / ((sibList aid tgt.id tgt (adjustBalance tgt.userId (-tgt.amount) s)).length : ℚ)) } : Txn).id
        = tgt.id) from hsib_ne)]
    rfl
  · intro r hr hne hnotsib
    rw [hfind_all r.id, find?_id_of_nodup s.txns hw.2 r hr, Option.map_some']
    have hFr : ¬(r.id ∈ (sibList aid tgt.id tgt
        (adjustBalance tgt.userId (-tgt.amount) s)).map Txn.id) := by
      intro hc
      rcases List.mem_map.mp hc with ⟨x, hx, hxid⟩
      have hxmem : x ∈ s.txns := List.mem_of_mem_filter hx
      have hxr : x = r := eq_of_id_eq hw.2 hxmem hr hxid
      subst hxr
      exact hnotsib hx
    rw [if_neg hFr, Option.map_some', if_neg hne]

/-- Witness for C4 amended: deleting one row of the three-member
equal-weight batch of `stateC4w` leaves 2 same-description siblings, each
recalculated to −(90/2) = −45. -/
theorem claim4_witness :
    WF stateC4w
    ∧ (sibList 1 1 (⟨1, 1, 1, expenseType, -30, .pickle 90 0, 5⟩ : Txn) stateC4w).length = 2
    ∧ findTxn (deleteTxn 1 1 stateC4w) 2
        = some ⟨2, 1, 2, expenseType,
            -((90 : ℚ) / ((sibList 1 1
                (⟨1, 1, 1, expenseType, -30, .pickle 90 0, 5⟩ : Txn) stateC4w).length : ℚ)),
            .pickle 90 0, 5⟩ := by
  refine ⟨by decide, by with_unfolding_all decide, ?_⟩
  exact (claim4_amended 1 1 stateC4w ⟨1, 1, 1, expenseType, -30, .pickle 90 0, 5⟩ 90
      (by decide) (by with_unfolding_all decide) (by with_unfolding_all decide)
      (by with_unfolding_all decide)).1
    ⟨2, 1, 2, expenseType, -30, .pickle 90 0, 5⟩ (by with_unfolding_all decide)

/-- **C5 counterexample.**  Deleting row 1 of `stateC5` — a two-row batch
whose descriptions carry no embedded total ("malformed" per the claim) —
performs no recalculation at all: the sibling row keeps amount −30.  Per
the claim, the recovered total would fall back to the sum of absolute
amounts (30 + 30 = 60) and the one remaining sibling would be set to −60.
So the fallback chain does not apply to the delete route. -/
theorem claim5_counterexample :
    findTxn (deleteTxn 1 1 stateC5) 2
      = some ⟨2, 1, 2, expenseType, -30, .bowl 3, 5⟩
    ∧ ((-30 : ℚ) ≠ -60) := by
  constructor
  · with_unfolding_all decide
  · norm_num

/-- **C5 amended.**  For an edit (update route) the recovered total does
follow the priority order — the caller's explicit amount, else the total
parsed from the old description, else the sum of the absolute amounts of
the batch rows — and a parse failure never raises an error.  For a delete,
the total is recovered only by parsing: when the description lacks the
pattern the route skips recalculation entirely (no fallback total) and
just reverses and voids the target, still without error. -/
theorem claim5_amended :
    (∀ (v : ℚ) (d : Desc) (sibs : List Txn), recoverTotal (some v) d sibs = v)
    ∧ (∀ (d : Desc) (sibs : List Txn) (tc : ℚ), matchTotal d = some tc →
        recoverTotal none d sibs = tc)
    ∧ (∀ (d : Desc) (sibs : List Txn), matchTotal d = none →
        recoverTotal none d sibs = sibs.foldl (fun sum t => sum + |t.amount|) 0)
    ∧ (∀ (aid i : Nat) (s : AppState) (tgt : Txn), findTxn s i = some tgt →
        matchTotal tgt.description = none →
        deleteTxn aid i s
          = voidRow i (.deleted tgt.description)
              (adjustBalance tgt.userId (-tgt.amount) s)) := by
  refine ⟨fun v d sibs => rfl, ?_, ?_, ?_⟩
  · intro d sibs tc h
    unfold recoverTotal
    rw [h]
  · intro d sibs h
    unfold recoverTotal
    rw [h]
  · intro aid i s tgt hfind hm
    rw [deleteTxn_some aid hfind]
    simp only [hm]

/-- Witness for C5 amended (delete clause) at `stateC5`: the `bowl`
description parses to no total, and the delete reduces to reverse + void
with no recalculation. -/
theorem claim5_witness :
    findTxn stateC5 1 = some ⟨1, 1, 1, expenseType, -30, .bowl 3, 5⟩
    ∧ matchTotal (Desc.bowl 3) = none
    ∧ deleteTxn 1 1 stateC5
        = voidRow 1 (.deleted (Desc.bowl 3))
            (adjustBalance 1 (-(-30 : ℚ)) stateC5) := by
  refine ⟨by with_unfolding_all decide, rfl, ?_⟩
  exact claim5_amended.2.2.2 1 1 stateC5 ⟨1, 1, 1, expenseType, -30, .bowl 3, 5⟩
    (by with_unfolding_all decide) rfl

/-- **C6 counterexample.**  Updating the one-row batch of `stateC6` with
explicit new amount 0 (so totalCost = 0 ≤ 0, selected member 1): the claim
says no transaction rows are written AND no user balance changes.  The
code wipes the old batch before the guard, so the row disappears and
member 1's balance moves from −30 to 0 — the balance does change (and a
row is deleted), refuting the claim for the reconciliation path. -/
theorem claim6_counterexample :
    (updateTxn 1 0 1 none (some 0) (some [1]) guestsC6 stateC6).txns = []
    ∧ findUser (updateTxn 1 0 1 none (some 0) (some [1]) guestsC6 stateC6) 1
        = some ⟨1, 1, 0⟩
    ∧ findUser stateC6 1 = some ⟨1, 1, -30⟩
    ∧ ((0 : ℚ) ≠ -30) := by
  refine ⟨?_, ?_, ?_, by norm_num⟩
  · with_unfolding_all decide
  · with_unfolding_all decide
  · with_unfolding_all decide

/-- **C6 amended.**  For the record route the claim holds in full: a
missing (non-numeric) or non-positive total, or an empty participant set,
leaves the state untouched.  For the reconciliation route the guard only
suppresses the reinsertion: the old batch rows are still wiped and their
amounts reversed out of the owners' balances (no new rows are written, but
rows and balances do change); the request still redirects as a success. -/
theorem claim6_amended :
    (∀ (aid : Nat) (userIds : List Nat) (guests : Nat → Nat) (t : Nat)
       (s : AppState), recordPickle aid none userIds guests t s = s)
    ∧ (∀ (aid : Nat) (c : ℚ) (userIds : List Nat) (guests : Nat → Nat) (t : Nat)
         (s : AppState), c ≤ 0 → recordPickle aid (some c) userIds guests t s = s)
    ∧ (∀ (aid : Nat) (c : ℚ) (guests : Nat → Nat) (t : Nat) (s : AppState),
        recordPickle aid (some c) [] guests t s = s)
    ∧ (∀ (aid : Nat) (cpg : ℚ) (i : Nat) (ngc : Option Nat) (na : Option ℚ)
         (userIds : List Nat) (guests : Nat → Nat) (s : AppState) (oldT : Txn),
        findTxn s i = some oldT →
        ¬(0 < (userIds.map (headsOf guests)).sum
           ∧ 0 < recoverTotal na oldT.description (updSibList aid oldT s)) →
        updateTxn aid cpg i ngc na (some userIds) guests s
          = wipeLoop (updSibList aid oldT s) s
        ∧ ∀ r ∈ (updateTxn aid cpg i ngc na (some userIds) guests s).txns,
            r ∈ s.txns) := by
  refine ⟨fun aid userIds guests t s => rfl, ?_, ?_, ?_⟩
  · intro aid c userIds guests t s hc
    show (if 0 < (userIds.map (headsOf guests)).sum ∧ 0 < c then
        recordPickleLoop aid (c / (((userIds.map (headsOf guests)).sum : ℕ) : ℚ))
          c guests t userIds s
      else s) = s
    rw [if_neg fun h => absurd h.2 (not_lt.mpr hc)]
  · intro aid c guests t s
    show (if 0 < (([] : List Nat).map (headsOf guests)).sum ∧ 0 < c then
        recordPickleLoop aid
          (c / ((((([] : List Nat)).map (headsOf guests)).sum : ℕ) : ℚ))
          c guests t [] s
      else s) = s
    rw [if_neg fun h => absurd h.1 (lt_irrefl 0)]
  · intro aid cpg i ngc na userIds guests s oldT hfind hg
    have heq : updateTxn aid cpg i ngc na (some userIds) guests s
        = wipeLoop (updSibList aid oldT s) s := by
      rw [updateTxn_pickle aid cpg ngc na userIds guests hfind, if_neg hg]
    refine ⟨heq, ?_⟩
    rw [heq]
    exact fun r hr => wipeLoop_txns_subset _ _ r hr

/-- Witness for C6 amended (reconciliation clause) at `stateC6` with
explicit new total 0: the update reduces to just wiping the old batch. -/
theorem claim6_witness :
    findTxn stateC6 1 = some ⟨1, 1, 1, expenseType, -30, .pickle 30 0, 5⟩
    ∧ ¬(0 < (([1] : List Nat).map (headsOf guestsC6)).sum
        ∧ 0 < recoverTotal (some 0) (Desc.pickle 30 0)
            (updSibList 1 (⟨1, 1, 1, expenseType, -30, .pickle 30 0, 5⟩ : Txn) stateC6))
    ∧ updateTxn 1 0 1 none (some 0) (some [1]) guestsC6 stateC6
        = wipeLoop (updSibList 1 (⟨1, 1, 1, expenseType, -30, .pickle 30 0, 5⟩ : Txn)
            stateC6) stateC6 := by
  refine ⟨?_, ?_, ?_⟩
  · with_unfolding_all decide
  · with_unfolding_all decide
  · exact (claim6_amended.2.2.2 1 0 1 none (some 0) [1] guestsC6 stateC6
      (⟨1, 1, 1, expenseType, -30, .pickle 30 0, 5⟩ : Txn)
      (by with_unfolding_all decide) (by with_unfolding_all decide)).1

/-- **C7.**  Soft delete: for an existing transaction (whose batch
siblings, if any, belong to other users — the normal case), the delete
route keeps the row but sets its type to `void`, its amount to 0 and
prefixes its description with the deletion marker, and the owning user's
balance is decreased by exactly the old amount. -/
theorem claim7_soft_delete (aid i : Nat) (s : AppState) (tgt : Txn) (u : User)
    (hw : WF s) (hfind : findTxn s i = some tgt)
    (hu : findUser s tgt.userId = some u)
    (hos : ∀ sib ∈ sibList aid i tgt s, sib.userId ≠ tgt.userId) :
    findTxn (deleteTxn aid i s) i
      = some { tgt with type := voidType, amount := 0, description := Desc.deleted tgt.description }
    ∧ ∃ u', findUser (deleteTxn aid i s) tgt.userId = some u'
        ∧ u'.balance = u.balance - tgt.amount := by
  have hid := findTxn_id hfind
  subst hid
  have hmem := findTxn_mem hfind
  rw [deleteTxn_some aid hfind]
  cases hm : matchTotal tgt.description with
  | none =>
    constructor
    · exact findTxn_voidRow_self (Desc.deleted tgt.description) hfind
    · rw [show findUser (voidRow tgt.id (Desc.deleted tgt.description)
          (adjustBalance tgt.userId (-tgt.amount) s)) tgt.userId
          = findUser (adjustBalance tgt.userId (-tgt.amount) s) tgt.userId from rfl,
        findUser_adjust, hu, Option.map_some']
      refine ⟨_, rfl, ?_⟩
      rw [if_pos (findUser_id hu)]
      show u.balance + -tgt.amount = u.balance - tgt.amount
      ring
  | some tc =>
    dsimp only
    by_cases hlen : 0 < (sibList aid tgt.id tgt
        (adjustBalance tgt.userId (-tgt.amount) s)).length
    · rw [if_pos hlen]
      have hsub : List.Sublist (sibList aid tgt.id tgt
          (adjustBalance tgt.userId (-tgt.amount) s)) s.txns :=
        List.filter_sublist s.txns
      have hnds : ((sibList aid tgt.id tgt
          (adjustBalance tgt.userId (-tgt.amount) s)).map Txn.id).Nodup :=
        (hsub.map Txn.id).nodup hw.2
      have hnotin : tgt.id ∉ (sibList aid tgt.id tgt
          (adjustBalance tgt.userId (-tgt.amount) s)).map Txn.id := by
        intro hc
        rcases List.mem_map.mp hc with ⟨x, hx, hxid⟩
        have hcond := (List.mem_filter.mp hx).2
        rw [decide_eq_true_iff] at hcond
        exact hcond.2.2.2.1 hxid
      have hF : ∀ t : Txn, ((fun t : Txn => if t.id ∈ (sibList aid tgt.id tgt
          (adjustBalance tgt.userId (-tgt.amount) s)).map Txn.id
          then { t with amount := -(tc / ((sibList aid tgt.id tgt (adjustBalance tgt.userId (-tgt.amount) s)).length : ℚ)) }
          else t) t).id = t.id := by
        intro t
        dsimp only
        by_cases hc : t.id ∈ (sibList aid tgt.id tgt
            (adjustBalance tgt.userId (-tgt.amount) s)).map Txn.id
        · rw [if_pos hc]
        · rw [if_neg hc]
      have hfound : findTxn (recalcLoop
          (-(tc / ((sibList aid tgt.id tgt
              (adjustBalance tgt.userId (-tgt.amount) s)).length : ℚ)))
          (sibList aid tgt.id tgt (adjustBalance tgt.userId (-tgt.amount) s))
          (adjustBalance tgt.userId (-tgt.amount) s)) tgt.id = some tgt := by
        show ((recalcLoop (-(tc / ((sibList aid tgt.id tgt
            (adjustBalance tgt.userId (-tgt.amount) s)).length : ℚ)))
            (sibList aid tgt.id tgt (adjustBalance tgt.userId (-tgt.amount) s))
            (adjustBalance tgt.userId (-tgt.amount) s)).txns.find?
            fun t => decide (t.id = tgt.id)) = _
        rw [recalcLoop_txns _ _ _ hnds, adjustBalance_txns,
          find?_id_map s.txns _ hF tgt.id,
          find?_id_of_nodup s.txns hw.2 tgt hmem, Option.map_some', if_neg hnotin]
      constructor
      · exact findTxn_voidRow_self (Desc.deleted tgt.description) hfound
      · rw [show findUser (voidRow tgt.id (Desc.deleted tgt.description)
            (recalcLoop (-(tc / ((sibList aid tgt.id tgt
                (adjustBalance tgt.userId (-tgt.amount) s)).length : ℚ)))
              (sibList aid tgt.id tgt (adjustBalance tgt.userId (-tgt.amount) s))
              (adjustBalance tgt.userId (-tgt.amount) s))) tgt.userId
            = findUser (recalcLoop (-(tc / ((sibList aid tgt.id tgt
                (adjustBalance tgt.userId (-tgt.amount) s)).length : ℚ)))
              (sibList aid tgt.id tgt (adjustBalance tgt.userId (-tgt.amount) s))
              (adjustBalance tgt.userId (-tgt.amount) s)) tgt.userId from rfl,
          recalcLoop_findUser_of_ne _ _ _ _ (show ∀ sib ∈ sibList aid tgt.id tgt
            (adjustBalance tgt.userId (-tgt.amount) s), sib.userId ≠ tgt.userId
            from hos),
          findUser_adjust, hu, Option.map_some']
        refine ⟨_, rfl, ?_⟩
        rw [if_pos (findUser_id hu)]
        show u.balance + -tgt.amount = u.balance - tgt.amount
        ring
    · rw [if_neg hlen]
      constructor
      · exact findTxn_voidRow_self (Desc.deleted tgt.description) hfind
      · rw [show findUser (voidRow tgt.id (Desc.deleted tgt.description)
            (adjustBalance tgt.userId (-tgt.amount) s)) tgt.userId
            = findUser (adjustBalance tgt.userId (-tgt.amount) s) tgt.userId from rfl,
          findUser_adjust, hu, Option.map_some']
        refine ⟨_, rfl, ?_⟩
        rw [if_pos (findUser_id hu)]
        show u.balance + -tgt.amount = u.balance - tgt.amount
        ring

/-- Witness for C7: soft-deleting row 1 of the three-member batch of
`stateC7` voids the row in place and credits its owner with the old −30. -/
theorem claim7_witness :
    WF stateC7
    ∧ findTxn (deleteTxn 1 1 stateC7) 1
        = some ⟨1, 1, 1, voidType, 0, .deleted (.pickle 90 0), 5⟩
    ∧ ∃ u', findUser (deleteTxn 1 1 stateC7) 1 = some u'
        ∧ u'.balance = (⟨1, 1, -30⟩ : User).balance - (-30 : ℚ) := by
  refine ⟨by decide, ?_⟩
  have h := claim7_soft_delete 1 1 stateC7
    ⟨1, 1, 1, expenseType, -30, .pickle 90 0, 5⟩ ⟨1, 1, -30⟩
    (by decide) (by with_unfolding_all decide) (by with_unfolding_all decide)
    (by with_unfolding_all decide)
  exact ⟨h.1, h.2⟩

/-- **C10.**  Submitting the normal update with neither a new game count
nor a new amount zeroes the transaction: the row keeps its description but
its amount becomes 0, and the owner's balance is decreased by the old
amount — the edit silently erases the charge instead of leaving it
unchanged. -/
theorem claim10_zeroing_update (aid : Nat) (cpg : ℚ) (i : Nat)
    (guests : Nat → Nat) (s : AppState) (oldT : Txn) (u : User)
    (hfind : findTxn s i = some oldT) (hu : findUser s oldT.userId = some u) :
    findTxn (updateTxn aid cpg i none none none guests s) i
      = some { oldT with amount := 0 }
    ∧ ∃ u', findUser (updateTxn aid cpg i none none none guests s) oldT.userId
        = some u'
        ∧ u'.balance = u.balance - oldT.amount := by
  have hid := findTxn_id hfind
  subst hid
  rw [updateTxn_normal aid cpg none none guests hfind]
  constructor
  · show ((s.txns.map fun t => if t.id = oldT.id
        then { t with amount := 0, description := oldT.description } else t).find?
        fun t => decide (t.id = oldT.id)) = _
    rw [find?_id_map s.txns _ (fun t => by
        show (if t.id = oldT.id
          then { t with amount := 0, description := oldT.description } else t).id = t.id
        by_cases hc : t.id = oldT.id
        · rw [if_pos hc]
        · rw [if_neg hc]) oldT.id]
    rw [show (s.txns.find? fun t => decide (t.id = oldT.id)) = some oldT from hfind,
      Option.map_some', if_pos rfl]
  · show ∃ u', findUser (adjustBalance oldT.userId 0
        (setRowAmountDesc oldT.id 0 oldT.description
          (adjustBalance oldT.userId (-oldT.amount) s))) oldT.userId = some u'
        ∧ u'.balance = u.balance - oldT.amount
    rw [findUser_adjust,
      show findUser (setRowAmountDesc oldT.id 0 oldT.description
          (adjustBalance oldT.userId (-oldT.amount) s)) oldT.userId
        = findUser (adjustBalance oldT.userId (-oldT.amount) s) oldT.userId from rfl,
      findUser_adjust, hu, Option.map_some', Option.map_some']
    refine ⟨_, rfl, ?_⟩
    rw [if_pos (findUser_id hu)]
    have hid2 : ({ u with balance := u.balance + -oldT.amount } : User).id
        = oldT.userId := by
      show u.id = oldT.userId
      exact findUser_id hu
    rw [if_pos hid2]
    show u.balance + -oldT.amount + 0 = u.balance - oldT.amount
    ring

/-- Witness for C10: updating the single bowling row of `stateC10` with no
new game count and no new amount zeroes the row and credits the owner by
the old 30. -/
theorem claim10_witness :
    findTxn stateC10 1 = some ⟨1, 1, 1, expenseType, -30, .bowl 3, 5⟩
    ∧ findTxn (updateTxn 1 0 1 none none none guestsC10 stateC10) 1
        = some ⟨1, 1, 1, expenseType, 0, .bowl 3, 5⟩
    ∧ ∃ u', findUser (updateTxn 1 0 1 none none none guestsC10 stateC10) 1 = some u'
        ∧ u'.balance = (⟨1, 1, -30⟩ : User).balance - (-30 : ℚ) := by
  refine ⟨by with_unfolding_all decide, ?_⟩
  have h := claim10_zeroing_update 1 0 1 guestsC10 stateC10
    ⟨1, 1, 1, expenseType, -30, .bowl 3, 5⟩ ⟨1, 1, -30⟩
    (by with_unfolding_all decide) (by with_unfolding_all decide)
  exact ⟨h.1, h.2⟩

end Bowling
